import Mathlib

/-!
# tcpconnparser: a shallow embedding and its verified properties

The Go package `tcpconnparser` decodes the kernel tables `/proc/net/tcp` and
`/proc/net/tcp6` into `Connection` records.  This file embeds the decoding
pipeline (`reverseBytesInHexWord`, the two `parseAddress` methods,
`convertState`, `parseAddress`, `parseQueues`, `parseUID`, `parseINode`,
`toConn`, `GetConnectionsFromReader`) as Lean functions and proves properties
of them.

Modelling conventions
* A Go `string` is a sequence of bytes: `GoString = List UInt8`; `len(s)` is
  `s.length`.  `[]rune(s)` and `for range s` decode UTF-8 the way the Go
  runtime does (an invalid byte is the rune U+FFFD of width one).
* A call returns a value, returns a non-nil `error`, or panics: `Outcome`.
  The zero values Go returns next to a non-nil error are not represented,
  except for `convertState` and `parseState`, which are embedded as pairs
  because their first result next to an error is the named constant
  `StateNone`.
* An error is the chain of `fmt.Errorf` sites that built it (`Err`); the
  values formatted into the message text (`%q`, `%d`) are not represented.
* `uint16`, `uint32`, `uint64` are `Nat` with explicit `% 2^w`.
* The library functions `strconv.ParseUint`, `strings.Split`,
  `strings.Fields`, `unicode.IsSpace`, the `unicode/utf8` codec and the line
  scanner `bufio.Scanner` are embedded from the Go standard library.
-/

namespace Tcpconnparser

/-! ## Go values -/

/-- A Go string: an immutable sequence of bytes. -/
abbrev GoString := List UInt8

/-- The errors of the package, one constructor per `fmt.Errorf` site; a
constructor with a `cause` is a site that wraps with `%w`. -/
inductive Err where
  /-- `strconv.ErrSyntax` inside a `*strconv.NumError` -/
  | errSyntax
  /-- `strconv.ErrRange` inside a `*strconv.NumError` -/
  | errRange
  /-- "hex string %q has odd number of nibbles" -/
  | oddNibbles
  /-- "unable to parse hex octet %q as integer: %w" -/
  | parseOctet (cause : Err)
  /-- "incorrect string length for IPv4 address: %d" -/
  | ipv4Length
  /-- "reversing bytes in address: %w" -/
  | reversingAddress (cause : Err)
  /-- "incorrect string length for IPv6 address: %d" -/
  | ipv6Length
  /-- "reversing bytes in word: %w" -/
  | reversingWord (cause : Err)
  /-- "illegal protocol version: %d" -/
  | illegalProtocolVersion
  /-- "illegal kernel TCP state: %q" -/
  | illegalState
  /-- "getting parser: %w" -/
  | gettingParser (cause : Err)
  /-- "scanning for connection line: %w" -/
  | scanning (cause : Err)
  /-- "parsing event: %w" -/
  | parsingEvent (cause : Err)
  /-- "invalid format: line contained less than %d fields: %d" -/
  | tooFewFields
  /-- "parsing local address: %w" -/
  | parsingLocalAddress (cause : Err)
  /-- "parsing remote address: %w" -/
  | parsingRemoteAddress (cause : Err)
  /-- "parsing queue lengths: %w" -/
  | parsingQueues (cause : Err)
  /-- "parsing connection state: %w" -/
  | parsingState (cause : Err)
  /-- "parsing connection inode: %w" -/
  | parsingINode (cause : Err)
  /-- "parsing UID: %w" -/
  | parsingUID (cause : Err)
  /-- "invalid format: address field contained less than %d subfields: %d" -/
  | tooFewAddressSubfields
  /-- "unable to parse %q as IP address: %w" -/
  | badIP (cause : Err)
  /-- "unable to parse port %q as integer: %w" -/
  | badPort (cause : Err)
  /-- "invalid format: queue field contained less than %d subfields: %d" -/
  | tooFewQueuesSubfields
  /-- "unable to parse TX queue length %q as integer: %w" -/
  | badTXQueue (cause : Err)
  /-- "unable to parse RX queue length %q as integer: %w" -/
  | badRXQueue (cause : Err)
  /-- "unable to parse state %q: %w" -/
  | badState (cause : Err)
  /-- "unable to parse UID %q as integer: %w" -/
  | badUID (cause : Err)
  /-- "unable to parse inode %q as integer: %w" -/
  | badINode (cause : Err)
  /-- bufio.ErrTooLong, the scanner's own error -/
  | tooLong
  deriving DecidableEq, Repr

/-- The three ways a Go call ends: it returns a value with a nil error, it
returns a non-nil error, or it panics at run time. -/
inductive Outcome (α : Type) where
  | ok (v : α)
  | error (e : Err)
  | panic
  deriving DecidableEq, Repr

/-- The idiom `x, err := f(); if err != nil { return fmt.Errorf("..: %w", err) }`
followed by the rest of the function body `k x`. -/
def Outcome.andThen {α β : Type} (x : Outcome α) (wrap : Err → Err)
    (k : α → Outcome β) : Outcome β :=
  match x with
  | .ok v => k v
  | .error e => .error (wrap e)
  | .panic => .panic

/-- Predicate that holds when the call returned a non-nil error. -/
def Outcome.isError {α : Type} : Outcome α → Bool
  | .error _ => true
  | _ => false

/-! ## The UTF-8 codec of the Go runtime (`unicode/utf8`) -/

/-- The rune `utf8.RuneError`, U+FFFD. -/
def RuneError : Nat := 0xFFFD

/-- The range `acceptRanges[first[s0]>>4]` allowed for the second byte of a
sequence led by `s0`. -/
def acceptRange (s0 : Nat) : Nat × Nat :=
  if s0 = 0xE0 then (0xA0, 0xBF)
  else if s0 = 0xED then (0x80, 0x9F)
  else if s0 = 0xF0 then (0x90, 0xBF)
  else if s0 = 0xF4 then (0x80, 0x8F)
  else (0x80, 0xBF)

/-- Go's `utf8.DecodeRuneInString`: the first rune of `s` and its width in bytes.
An invalid or truncated sequence gives `(RuneError, 1)`. -/
def DecodeRuneInString (s : GoString) : Nat × Nat :=
  match s with
  | [] => (RuneError, 0)
  | c0 :: t =>
    let s0 := c0.toNat
    if s0 < 0x80 then (s0, 1)
    else if s0 < 0xC2 ∨ 0xF4 < s0 then (RuneError, 1)
    else
      let sz := if s0 < 0xE0 then 2 else if s0 < 0xF0 then 3 else 4
      if s.length < sz then (RuneError, 1)
      else
        let s1 := (t.getD 0 0).toNat
        if s1 < (acceptRange s0).1 ∨ (acceptRange s0).2 < s1 then (RuneError, 1)
        else if sz ≤ 2 then ((s0 % 0x20) * 0x40 + s1 % 0x40, 2)
        else
          let s2 := (t.getD 1 0).toNat
          if s2 < 0x80 ∨ 0xBF < s2 then (RuneError, 1)
          else if sz ≤ 3 then ((s0 % 0x10) * 0x1000 + (s1 % 0x40) * 0x40 + s2 % 0x40, 3)
          else
            let s3 := (t.getD 2 0).toNat
            if s3 < 0x80 ∨ 0xBF < s3 then (RuneError, 1)
            else ((s0 % 0x08) * 0x40000 + (s1 % 0x40) * 0x1000 + (s2 % 0x40) * 0x40
                    + s3 % 0x40, 4)

/-- The iteration `for i, r := range s`: each rune of `s` with the bytes
`s[i:i+width]` it was decoded from.  `skip` counts the bytes of the current
rune that are still to be stepped over. -/
def rangeStringAux : GoString → Nat → List (Nat × GoString)
  | [], _ => []
  | c :: t, 0 =>
    let d := DecodeRuneInString (c :: t)
    (d.1, (c :: t).take d.2) :: rangeStringAux t (d.2 - 1)
  | _ :: t, skip + 1 => rangeStringAux t skip

/-- The runes of a string with their source bytes, in order. -/
def rangeString (s : GoString) : List (Nat × GoString) := rangeStringAux s 0

/-- The conversion `[]rune(s)`. -/
def toRunes (s : GoString) : List Nat := (rangeString s).map Prod.fst

/-- Go's `utf8.AppendRune`: the UTF-8 encoding of one rune; a surrogate or a
value above U+10FFFF is encoded as U+FFFD. -/
def encodeRune (r : Nat) : GoString :=
  if r ≤ 0x7F then [UInt8.ofNat r]
  else if r ≤ 0x7FF then [UInt8.ofNat (0xC0 + r / 0x40), UInt8.ofNat (0x80 + r % 0x40)]
  else if 0x10FFFF < r ∨ (0xD800 ≤ r ∧ r ≤ 0xDFFF) then [0xEF, 0xBF, 0xBD]
  else if r ≤ 0xFFFF then
    [UInt8.ofNat (0xE0 + r / 0x1000), UInt8.ofNat (0x80 + r / 0x40 % 0x40),
     UInt8.ofNat (0x80 + r % 0x40)]
  else
    [UInt8.ofNat (0xF0 + r / 0x40000), UInt8.ofNat (0x80 + r / 0x1000 % 0x40),
     UInt8.ofNat (0x80 + r / 0x40 % 0x40), UInt8.ofNat (0x80 + r % 0x40)]

/-- The conversion `string(rs)` of a rune slice. -/
def runesToString (rs : List Nat) : GoString := rs.flatMap encodeRune

/-- The Go string denoted by a source literal: the UTF-8 bytes of its text. -/
def str (s : String) : GoString := runesToString (s.data.map Char.toNat)

/-! ## `strconv.ParseUint` -/

/-- The digit value `ParseUint` gives a byte: `c - '0'` for a decimal digit,
`lower(c) - 'a' + 10` for a letter, nothing for any other byte. -/
def digitVal (c : UInt8) : Option Nat :=
  let n := c.toNat
  if 0x30 ≤ n ∧ n ≤ 0x39 then some (n - 0x30)
  else if 0x61 ≤ n ∧ n ≤ 0x7A then some (n - 0x61 + 10)
  else if 0x41 ≤ n ∧ n ≤ 0x5A then some (n - 0x41 + 10)
  else none

/-- The digit loop of `ParseUint`, `n` being the `uint64` accumulator. -/
def parseUintLoop (base cutoff maxVal : Nat) : GoString → Nat → Outcome Nat
  | [], n => .ok n
  | c :: cs, n =>
    match digitVal c with
    | none => .error .errSyntax
    | some d =>
      if d ≥ base then .error .errSyntax
      else if n ≥ cutoff then .error .errRange
      else
        let n' := (n * base) % 2 ^ 64
        let n1 := (n' + d) % 2 ^ 64
        if n1 < n' ∨ n1 > maxVal then .error .errRange
        else parseUintLoop base cutoff maxVal cs n1

/-- Go's `strconv.ParseUint(s, base, bitSize)` for an explicit base between 2 and
36 and a bit size between 1 and 64 (the package calls it with bases 10 and 16
and bit sizes 8, 16 and 32). -/
def ParseUint (s : GoString) (base bitSize : Nat) : Outcome Nat :=
  if s = [] then .error .errSyntax
  else parseUintLoop base ((2 ^ 64 - 1) / base + 1) (2 ^ bitSize - 1) s 0

/-! ## bytemanipulation.go -/

/-- The loop of `reverseBytesInHexWord`.  The first argument is `src[i:]`, so the
loop condition `i < len(src)` holds when it is non-empty and `src[i+1]` is in
range when it has two elements; `j` and `dst` are the variables of the source.
An index out of range is a run-time panic. -/
def reverseLoop : List Nat → Int → List UInt8 → Outcome (List UInt8)
  | [], _, dst => .ok dst
  | [_], _, _ => .panic
  | r0 :: r1 :: rest, j, dst =>
    match ParseUint (runesToString [r0, r1]) 16 8 with
    | .panic => .panic
    | .error e => .error (.parseOctet e)
    | .ok octetUint64 =>
      if 0 ≤ j ∧ j < dst.length then
        reverseLoop rest (j - 1) (dst.set j.toNat (UInt8.ofNat octetUint64))
      else .panic

/-- The function `reverseBytesInHexWord` of bytemanipulation.go. -/
def reverseBytesInHexWord (hexWord : GoString) : Outcome (List UInt8) :=
  if hexWord.length % 2 ≠ 0 then .error .oddNibbles
  else
    let src := toRunes hexWord
    let dst := List.replicate (src.length / 2) (0 : UInt8)
    reverseLoop src ((dst.length : Int) - 1) dst

/-! ## ipv4parser.go, ipv6parser.go, ipparser.go -/

def nibblesInIPv4Address : Nat := 8

def bytesInIPv6Address : Nat := 16

def nibblesIn32BitWord : Nat := 8

def wordsInIPv6Address : Nat := 4

def nibblesInIPv6Address : Nat := bytesInIPv6Address * 2

/-- The method `(*ipv4Parser).parseAddress` of ipv4parser.go; the result `net.IP`
is a byte slice. -/
def ipv4Parser.parseAddress (str : GoString) : Outcome (List UInt8) :=
  if str.length ≠ nibblesInIPv4Address then .error .ipv4Length
  else (reverseBytesInHexWord str).andThen .reversingAddress fun addrBytes => .ok addrBytes

/-- The slice expression `s[lo:hi]` of a string, `none` when it panics
(`lo > hi` or `hi > len(s)`). -/
def sliceString (s : GoString) (lo hi : Nat) : Option GoString :=
  if lo ≤ hi ∧ hi ≤ s.length then some ((s.drop lo).take (hi - lo)) else none

/-- The loop of `(*ipv6Parser).parseAddress`; the first argument is the number of
iterations left, `wordsInIPv6Address - i`. -/
def ipv6Loop (str : GoString) : Nat → Nat → Nat → List UInt8 → Outcome (List UInt8)
  | 0, _, _, addrBytes => .ok addrBytes
  | n + 1, startIndex, endIndex, addrBytes =>
    match sliceString str startIndex endIndex with
    | none => .panic
    | some word =>
      (reverseBytesInHexWord word).andThen .reversingWord fun wordBytes =>
        ipv6Loop str n (startIndex + nibblesIn32BitWord) (endIndex + nibblesIn32BitWord)
          (addrBytes ++ wordBytes)

/-- The method `(*ipv6Parser).parseAddress` of ipv6parser.go. -/
def ipv6Parser.parseAddress (str : GoString) : Outcome (List UInt8) :=
  if str.length ≠ nibblesInIPv6Address then .error .ipv6Length
  else ipv6Loop str wordsInIPv6Address 0 (0 + nibblesIn32BitWord) []

/-- The interface `ipParser`, implemented by exactly the two parser types. -/
inductive ipParser where
  | ipv4Parser
  | ipv6Parser
  deriving DecidableEq, Repr

/-- Dynamic dispatch of `ipParser.parseAddress`. -/
def ipParser.parseAddress (p : ipParser) (str : GoString) : Outcome (List UInt8) :=
  match p with
  | .ipv4Parser => Tcpconnparser.ipv4Parser.parseAddress str
  | .ipv6Parser => Tcpconnparser.ipv6Parser.parseAddress str

/-! ## protocolversion.go -/

/-- The type `ProtocolVersion`, a Go `int`. -/
abbrev ProtocolVersion := Int

def ProtocolVersionIPv4 : ProtocolVersion := 4

def ProtocolVersionIPv6 : ProtocolVersion := 6

def tcpv4FilePath : GoString := str "/proc/net/tcp"

def tcpv6FilePath : GoString := str "/proc/net/tcp6"

/-- The method `ProtocolVersion.path`. -/
def ProtocolVersion.path (pv : ProtocolVersion) : Outcome GoString :=
  if pv = ProtocolVersionIPv4 then .ok tcpv4FilePath
  else if pv = ProtocolVersionIPv6 then .ok tcpv6FilePath
  else .error .illegalProtocolVersion

/-- The method `ProtocolVersion.parser`. -/
def ProtocolVersion.parser (pv : ProtocolVersion) : Outcome ipParser :=
  if pv = ProtocolVersionIPv4 then .ok .ipv4Parser
  else if pv = ProtocolVersionIPv6 then .ok .ipv6Parser
  else .error .illegalProtocolVersion

/-! ## state.go -/

def kernelTCPEstablished : GoString := str "01"

def kernelTCPSynSent : GoString := str "02"

def kernelTCPSynRecv : GoString := str "03"

def kernelTCPFinWait1 : GoString := str "04"

def kernelTCPFinWait2 : GoString := str "05"

def kernelTCPTimeWait : GoString := str "06"

def kernelTCPClose : GoString := str "07"

def kernelTCPCloseWait : GoString := str "08"

def kernelTCPLastAck : GoString := str "09"

def kernelTCPListen : GoString := str "0A"

def kernelTCPClosing : GoString := str "0B"

def kernelTCPNewSynRecv : GoString := str "0C"

/-- The type `State` with its twelve declared constants: the eleven states of
RFC 793 and `StateNone`, the empty string. -/
inductive State where
  | StateListen
  | StateSynSent
  | StateSynReceived
  | StateEstablished
  | StateFinWait1
  | StateFinWait2
  | StateCloseWait
  | StateClosing
  | StateLastAck
  | StateTimeWait
  | StateClosed
  | StateNone
  deriving DecidableEq, Repr

open State

/-- The function `convertState` of state.go.  The pair is Go's `(State, error)`;
the second component is `none` for a nil error. -/
def convertState (kernelState : GoString) : State × Option Err :=
  if kernelState = kernelTCPEstablished then (StateEstablished, none)
  else if kernelState = kernelTCPSynSent then (StateSynSent, none)
  else if kernelState = kernelTCPSynRecv then (StateSynReceived, none)
  else if kernelState = kernelTCPFinWait1 then (StateFinWait1, none)
  else if kernelState = kernelTCPFinWait2 then (StateFinWait2, none)
  else if kernelState = kernelTCPTimeWait then (StateTimeWait, none)
  else if kernelState = kernelTCPClose then (StateClosed, none)
  else if kernelState = kernelTCPCloseWait then (StateCloseWait, none)
  else if kernelState = kernelTCPLastAck then (StateLastAck, none)
  else if kernelState = kernelTCPListen then (StateListen, none)
  else if kernelState = kernelTCPClosing then (StateClosing, none)
  else if kernelState = kernelTCPNewSynRecv then (StateSynReceived, none)
  else (StateNone, some .illegalState)

/-! ## conn.go -/

/-- The struct `Connection`.  A nil `net.IP` is the empty list. -/
structure Connection where
  State : State
  ReceiveBufferSize : Nat
  SendBufferSize : Nat
  AcceptBacklog : Nat
  ProtocolVersion : ProtocolVersion
  LocalAddr : List UInt8
  RemoteAddr : List UInt8
  LocalPort : Nat
  RemotePort : Nat
  UID : Nat
  INode : Nat
  deriving DecidableEq, Repr

/-- The constructor `NewListeningConnection`: the fields it does not set keep
their zero values. -/
def NewListeningConnection (protocolVersion : ProtocolVersion) (acceptBacklog : Nat)
    (localAddr : List UInt8) (localPort uid iNode : Nat) : Connection :=
  { State := StateListen
    ReceiveBufferSize := 0
    SendBufferSize := 0
    AcceptBacklog := acceptBacklog
    ProtocolVersion := protocolVersion
    LocalAddr := localAddr
    RemoteAddr := []
    LocalPort := localPort
    RemotePort := 0
    UID := uid
    INode := iNode }

/-- The constructor `NewConnection`. -/
def NewConnection (state : State) (protocolVersion : ProtocolVersion)
    (receiveBufferSize SendBufferSize : Nat) (localAddr : List UInt8) (localPort : Nat)
    (remoteAddr : List UInt8) (remotePort uid iNode : Nat) : Connection :=
  { State := state
    ReceiveBufferSize := receiveBufferSize
    SendBufferSize := SendBufferSize
    AcceptBacklog := 0
    ProtocolVersion := protocolVersion
    LocalAddr := localAddr
    RemoteAddr := remoteAddr
    LocalPort := localPort
    RemotePort := remotePort
    UID := uid
    INode := iNode }

/-! ## `strings.Split` and `strings.Fields` -/

/-- Go's `strings.Split(s, sep)` for a separator of one byte: the substrings
between the occurrences of `sep`; the result is never empty. -/
def Split (s : GoString) (sep : UInt8) : List GoString :=
  match s with
  | [] => [[]]
  | c :: cs =>
    if c = sep then [] :: Split cs sep
    else
      match Split cs sep with
      | [] => [[c]]
      | h :: t => (c :: h) :: t

/-- Go's `unicode.IsSpace`. -/
def IsSpace (r : Nat) : Bool :=
  (0x09 ≤ r ∧ r ≤ 0x0D) ∨ r = 0x20 ∨ r = 0x85 ∨ r = 0xA0 ∨ r = 0x1680
    ∨ (0x2000 ≤ r ∧ r ≤ 0x200A) ∨ r = 0x2028 ∨ r = 0x2029 ∨ r = 0x202F
    ∨ r = 0x205F ∨ r = 0x3000

/-- The loop of `strings.FieldsFunc` over `for end, rune := range s`; `cur` is
the field being read (`none` when `start < 0`). -/
def fieldsLoop : List (Nat × GoString) → Option GoString → List GoString
  | [], none => []
  | [], some f => [f]
  | (r, bs) :: rest, cur =>
    if IsSpace r then
      match cur with
      | some f => f :: fieldsLoop rest none
      | none => fieldsLoop rest none
    else fieldsLoop rest (some (cur.getD [] ++ bs))

/-- Go's `strings.Fields(s)`: the maximal substrings of `s` free of white space
(its ASCII fast path computes the same result on ASCII strings). -/
def Fields (s : GoString) : List GoString := fieldsLoop (rangeString s) none

/-- The index expression `xs[i]` of a slice; out of range is a panic. -/
def index {α : Type} (xs : List α) (i : Nat) : Outcome α :=
  match xs.get? i with
  | some x => .ok x
  | none => .panic

/-! ## parser.go -/

def indexLocalAddress : Nat := 1

def indexRemAddress : Nat := 2

def indexState : Nat := 3

def indexQueues : Nat := 4

def indexUID : Nat := 7

def indexINode : Nat := 9

def minNoOfFields : Nat := 10

def subIndexIP : Nat := 0

def subIndexPort : Nat := 1

def minNoOfAddressSubfields : Nat := 2

def subIndexTXQueue : Nat := 0

def subIndexRXQueue : Nat := 1

def minNoOfQueuesSubfields : Nat := 2

/-- The function `parseAddress` of parser.go: address and port of a token. -/
def parseAddress (str : GoString) (p : ipParser) : Outcome (List UInt8 × Nat) :=
  let subFields := Split str 0x3A
  if subFields.length < minNoOfAddressSubfields then .error .tooFewAddressSubfields
  else
    (index subFields subIndexIP).andThen id fun ipField =>
    (p.parseAddress ipField).andThen .badIP fun addr =>
    (index subFields subIndexPort).andThen id fun portField =>
    (ParseUint portField 16 16).andThen .badPort fun uint64Port =>
    .ok (addr, uint64Port % 2 ^ 16)

/-- The function `parseQueues` of parser.go: the pair `(tx, rx)`. -/
def parseQueues (str : GoString) : Outcome (Nat × Nat) :=
  let subFields := Split str 0x3A
  if subFields.length < minNoOfQueuesSubfields then .error .tooFewQueuesSubfields
  else
    (index subFields subIndexTXQueue).andThen id fun txField =>
    (ParseUint txField 16 32).andThen .badTXQueue fun txUint64 =>
    (index subFields subIndexRXQueue).andThen id fun rxField =>
    (ParseUint rxField 16 32).andThen .badRXQueue fun rxUint64 =>
    .ok (txUint64 % 2 ^ 32, rxUint64 % 2 ^ 32)

/-- The function `parseState` of parser.go, a pair like `convertState`. -/
def parseState (str : GoString) : State × Option Err :=
  match convertState str with
  | (_, some err) => (StateNone, some (.badState err))
  | (state, none) => (state, none)

/-- The function `parseUID` of parser.go. -/
def parseUID (str : GoString) : Outcome Nat :=
  (ParseUint str 10 32).andThen .badUID fun uidUint64 => .ok (uidUint64 % 2 ^ 32)

/-- The function `parseINode` of parser.go. -/
def parseINode (str : GoString) : Outcome Nat :=
  (ParseUint str 10 32).andThen .badINode fun iNodeUint64 => .ok (iNodeUint64 % 2 ^ 32)

/-- The function `toConn` of parser.go. -/
def toConn (str : GoString) (p : ipParser) (protocolVersion : ProtocolVersion) :
    Outcome Connection :=
  let fields := Fields str
  if fields.length < minNoOfFields then .error .tooFewFields
  else
    (index fields indexLocalAddress).andThen id fun localField =>
    (parseAddress localField p).andThen .parsingLocalAddress fun loc =>
    (index fields indexRemAddress).andThen id fun remField =>
    (parseAddress remField p).andThen .parsingRemoteAddress fun rem =>
    (index fields indexQueues).andThen id fun queuesField =>
    (parseQueues queuesField).andThen .parsingQueues fun queues =>
    (index fields indexState).andThen id fun stateField =>
    match parseState stateField with
    | (_, some err) => .error (.parsingState err)
    | (state, none) =>
      (index fields indexINode).andThen id fun iNodeField =>
      (parseINode iNodeField).andThen .parsingINode fun iNode =>
      (index fields indexUID).andThen id fun uidField =>
      (parseUID uidField).andThen .parsingUID fun uid =>
      if state = StateListen then
        .ok (NewListeningConnection protocolVersion queues.2 loc.1 loc.2 uid iNode)
      else
        .ok (NewConnection state protocolVersion queues.2 queues.1 loc.1 loc.2 rem.1 rem.2
          uid iNode)

/-! ## `io.Reader` and `bufio.Scanner` -/

/-- An `io.Reader`: the bytes it delivers before it ends, and the error that ends
it, `none` for `io.EOF`.  (The error arrives on a read that delivers no bytes,
as with `strings.Reader` and `os.File`; how the bytes are split over the reads
does not change what the scanner returns.) -/
structure Reader where
  data : GoString
  err : Option Err
  deriving DecidableEq, Repr

/-- The constant `bufio.MaxScanTokenSize`, the size the scanner's buffer may
reach. -/
def MaxScanTokenSize : Nat := 64 * 1024

/-- The helper `dropCR` of `bufio.ScanLines`: a trailing carriage return is
dropped. -/
def dropCR (data : GoString) : GoString :=
  if data.getLast? = some 0x0D then data.dropLast else data

/-- The run of a `bufio.Scanner` with the default split function `ScanLines`:
the tokens the successive calls of `Scan` deliver and the final value of `Err()`.
`line` holds the bytes of the current line read so far.  A line of
`MaxScanTokenSize` bytes or more fills the buffer before its end is seen and
stops the scan with `bufio.ErrTooLong`; a last line without a newline is
delivered when it is not empty. -/
def scanLoop : GoString → GoString → Option Err → List GoString × Option Err
  | [], line, readErr =>
    if line = [] then ([], readErr)
    else if line.length ≥ MaxScanTokenSize then ([], some .tooLong)
    else ([dropCR line], readErr)
  | c :: rest, line, readErr =>
    if c = 0x0A then
      if line.length ≥ MaxScanTokenSize then ([], some .tooLong)
      else ((dropCR line) :: (scanLoop rest [] readErr).1, (scanLoop rest [] readErr).2)
    else scanLoop rest (line ++ [c]) readErr

/-- The lines a scanner over `reader` delivers, and its final error. -/
def scanLines (reader : Reader) : List GoString × Option Err :=
  scanLoop reader.data [] reader.err

/-! ## parser.go: the table decoder -/

/-- The loop of `GetConnectionsFromReader` over the lines the scanner delivers:
`lines` are the tokens still to come, `scanErr` is what `scanner.Err()` returns
when `Scan` reports false, `firstLine` and `conns` are the variables of the
source. -/
def connsLoop (p : ipParser) (protocolVersion : ProtocolVersion) :
    List GoString → Option Err → Bool → List Connection → Outcome (List Connection)
  | [], scanErr, _, conns =>
    match scanErr with
    | some err => .error (.scanning err)
    | none => .ok conns
  | str :: rest, scanErr, firstLine, conns =>
    if firstLine then connsLoop p protocolVersion rest scanErr false conns
    else if str.length = 0 then connsLoop p protocolVersion rest scanErr false conns
    else
      (toConn str p protocolVersion).andThen .parsingEvent fun conn =>
        connsLoop p protocolVersion rest scanErr false (conns ++ [conn])

/-- The function `GetConnectionsFromReader` of parser.go. -/
def GetConnectionsFromReader (reader : Reader) (protocolVersion : ProtocolVersion) :
    Outcome (List Connection) :=
  (ProtocolVersion.parser protocolVersion).andThen .gettingParser fun ipParser =>
    connsLoop ipParser protocolVersion (scanLines reader).1 (scanLines reader).2 true []

/-! ## Specification vocabulary -/

/-- A hexadecimal digit, upper or lower case. -/
def isHexDigit (c : UInt8) : Bool :=
  c ∈ str "0123456789abcdef" ∨ c ∈ str "0123456789ABCDEF"

/-- The value of a hexadecimal digit: its position among the sixteen digits. -/
def hexValue (c : UInt8) : Nat :=
  min ((str "0123456789abcdef").indexOf c) ((str "0123456789ABCDEF").indexOf c)

/-- The bytes `b0, b1, ...` that the digit pairs of a hex string encode, in
order. -/
def hexPairs : GoString → List UInt8
  | c0 :: c1 :: rest => UInt8.ofNat (16 * hexValue c0 + hexValue c1) :: hexPairs rest
  | _ => []

/-- The four 8-byte words of a 32-byte string, in order. -/
def word (str : GoString) (w : Nat) : GoString := (str.drop (8 * w)).take 8

/-- The hexadecimal digit of a value below sixteen, in upper or lower case. -/
def hexDigitOf (upper : Bool) (n : Nat) : UInt8 :=
  (if upper then str "0123456789ABCDEF" else str "0123456789abcdef").getD n 0x30

/-- The two hex digits of a byte, high nibble first. -/
def encodeByte (upper : Bool) (b : UInt8) : GoString :=
  [hexDigitOf upper (b.toNat / 16), hexDigitOf upper (b.toNat % 16)]

/-- The hex string of a byte sequence, two digits a byte, in order. -/
def encodeHex (upper : Bool) (bs : List UInt8) : GoString :=
  bs.flatMap (encodeByte upper)

/-- The source hex form of a 4-byte address: the hex digits of its bytes in
reversed order. -/
def encodeIPv4 (upper : Bool) (a : List UInt8) : GoString := encodeHex upper a.reverse

/-- The bytes of an address with every group of four reversed and the groups
kept in order. -/
def reverseGroups : List UInt8 → List UInt8
  | a :: b :: c :: d :: rest => d :: c :: b :: a :: reverseGroups rest
  | _ => []

/-- The source hex form of a 16-byte address: each 4-byte group byte-reversed,
the groups in order, written as 32 hex digits. -/
def encodeIPv6 (upper : Bool) (a : List UInt8) : GoString := encodeHex upper (reverseGroups a)

/-- The twelve kernel state codes of state.go. -/
def kernelCodes : List GoString :=
  [kernelTCPEstablished, kernelTCPSynSent, kernelTCPSynRecv, kernelTCPFinWait1,
   kernelTCPFinWait2, kernelTCPTimeWait, kernelTCPClose, kernelTCPCloseWait,
   kernelTCPLastAck, kernelTCPListen, kernelTCPClosing, kernelTCPNewSynRecv]

/-- The table line of `TestGetConnectionsListeningConnIPv4`. -/
def listeningLineIPv4 : GoString :=
  str ("0: 0100007F:1A85 00000000:0000 0A 00000000:00000032 00:00000000 00000000  1000" ++
    "        0 789829 51 0000000000000000 100 0 0 10 0")

/-- The table line of `TestGetConnectionsNonListeningConnIPv4`. -/
def establishedLineIPv4 : GoString :=
  str ("0: 0301A8C0:D3A0 7D10DD58:01BB 01 00000000:00000000 02:0000009A 00000000  1000" ++
    "        0 380687 2 0000000000000000 22 4 2 10 -1")

/-- A decimal digit. -/
def isDecDigit (c : UInt8) : Bool := c ∈ str "0123456789"

/-- The value of a decimal digit: its position among the ten digits. -/
def decValue (c : UInt8) : Nat := (str "0123456789").indexOf c

/-- The number a string of hexadecimal digits denotes. -/
def hexNumber (s : GoString) : Nat := s.foldl (fun acc c => 16 * acc + hexValue c) 0

/-- The number a string of decimal digits denotes. -/
def decNumber (s : GoString) : Nat := s.foldl (fun acc c => 10 * acc + decValue c) 0

/-- A non-empty string of hexadecimal digits (either case, no prefix, no sign)
whose value is below `2 ^ bitSize`. -/
def isHexUint (bitSize : Nat) (s : GoString) : Prop :=
  s ≠ [] ∧ (∀ c ∈ s, isHexDigit c = true) ∧ hexNumber s < 2 ^ bitSize

/-- A non-empty string of decimal digits (no sign) whose value is below
`2 ^ bitSize`. -/
def isDecUint (bitSize : Nat) (s : GoString) : Prop :=
  s ≠ [] ∧ (∀ c ∈ s, isDecDigit c = true) ∧ decNumber s < 2 ^ bitSize

instance (bitSize : Nat) (s : GoString) : Decidable (isHexUint bitSize s) := by
  unfold isHexUint; infer_instance

instance (bitSize : Nat) (s : GoString) : Decidable (isDecUint bitSize s) := by
  unfold isDecUint; infer_instance

/-- The value `ParseUint` accumulates over the digits of `s` in base `base`,
starting from `n`, without any bound. -/
def digitsValue (base : Nat) (s : GoString) (n : Nat) : Nat :=
  s.foldl (fun acc c => acc * base + (digitVal c).getD 0) n

/-- The number of bytes of an address of the family a parser decodes. -/
def addrLen (p : ipParser) : Nat :=
  match p with
  | .ipv4Parser => 4
  | .ipv6Parser => 16

/-- The header line of the IPv4 tables in parser_test.go. -/
def headerLineIPv4 : GoString :=
  str ("sl  local_address rem_address   st tx_queue rx_queue tr tm->when retrnsmt   uid" ++
    "  timeout inode")

/-- A table line whose local address holds the two-byte character é: `toConn`
panics on it. -/
def multibyteLineIPv4 : GoString :=
  str "0: 000000é:1A85 00000000:0000 0A 00000000:00000032 0 0 1000 0 789829"

/-- The line of `TestGetConnectionsLowFieldCountError`, three tokens long. -/
def shortLineIPv4 : GoString := str "0: 0301A8C0:D3A0 7D10DD58:01BB"

/-- The table line of `TestGetConnectionsListeningConnIPv6`. -/
def listeningLineIPv6 : GoString :=
  str ("2: 00000000000000000000000001000000:0277 00000000000000000000000000000000:0000 0A" ++
    " 00000000:00000000 00:00000000 00000000     0        0 31267 1 0000000000000000" ++
    " 100 0 0 10 0")

/-- A reader over the text made of the given lines, separated by newlines, that
ends with `io.EOF`. -/
def tableReader (lines : List GoString) : Reader :=
  { data := ([0x0A] : GoString).intercalate lines, err := none }

/-- The table line of `TestGetConnectionsNonListeningConnIPv6`. -/
def establishedLineIPv6 : GoString :=
  str ("5: 00000000000000000000000001000000:1A85 00000000000000000000000001000000:BF7A 01" ++
    " 00000000:00000000 00:00000000 00000000  1000        0 394269 1 0000000000000000" ++
    " 20 0 0 10 -1")

/-- The header line of the IPv6 tables in parser_test.go. -/
def headerLineIPv6 : GoString :=
  str ("sl  local_address                         remote_address                        st" ++
    " tx_queue rx_queue tr tm->when retrnsmt   uid  timeout inode")

/-- The listening test line with its remote address replaced by "000000é": eight
bytes, seven characters. -/
def listeningLineBadRemote : GoString :=
  str ("0: 0100007F:1A85 000000é:0000 0A 00000000:00000032 00:00000000 00000000  1000" ++
    "        0 789829 51 0000000000000000 100 0 0 10 0")

/-- The listening test line with every token other than those at indices 1, 2, 3,
4, 7 and 9 changed, and three tokens added. -/
def listeningLineOtherTokens : GoString :=
  str "x 0100007F:1A85 00000000:0000 0A 00000000:00000032 y z 1000 w 789829 more tokens here"

/-- The listening test line with its remote token replaced by `remote`. -/
def listeningLineWithRemote (remote : GoString) : GoString :=
  str "0: 0100007F:1A85 " ++ remote ++ str " 0A 00000000:00000032 0 0 1000 0 789829"

/-- A line as `ScanLines` understands it and as the scanner can deliver it: no
newline inside, no carriage return at its end (that one belongs to the line
terminator), and shorter than the scanner's buffer of 65536 bytes. -/
def isScanLine (l : GoString) : Prop :=
  (0x0A : UInt8) ∉ l ∧ l.getLast? ≠ some 0x0D ∧ l.length < 65536

instance (l : GoString) : Decidable (isScanLine l) := by
  unfold isScanLine; infer_instance

/-- The text of a line sequence: every line followed by a newline. -/
def textOf (lines : List GoString) : GoString := lines.flatMap fun l => l ++ [0x0A]

/-- A header line of 65536 letters x, the size of the scanner's buffer. -/
def longHeaderLine : GoString := List.replicate 65536 0x78

/-- The eleven symbolic states, `StateNone` left out. -/
def symbolicStates : List State :=
  [StateListen, StateSynSent, StateSynReceived, StateEstablished, StateFinWait1,
   StateFinWait2, StateCloseWait, StateClosing, StateLastAck, StateTimeWait, StateClosed]

/-! ## Lemmas: the codec on ASCII strings -/

theorem ofNat_toNat (c : UInt8) : UInt8.ofNat c.toNat = c := by
  apply UInt8.eq_of_toBitVec_eq
  simp [UInt8.ofNat, UInt8.toNat]

theorem rangeStringAux_ascii (s : GoString) (h : ∀ c ∈ s, c.toNat < 0x80) :
    rangeStringAux s 0 = s.map fun c => (c.toNat, [c]) := by
  induction s with
  | nil => rfl
  | cons c t ih =>
    have hc : c.toNat < 0x80 := h c (List.mem_cons_self _ _)
    have ht : ∀ d ∈ t, d.toNat < 0x80 := fun d hd => h d (List.mem_cons_of_mem _ hd)
    simp [rangeStringAux, DecodeRuneInString, hc, ih ht]

theorem toRunes_ascii (s : GoString) (h : ∀ c ∈ s, c.toNat < 0x80) :
    toRunes s = s.map UInt8.toNat := by
  simp [toRunes, rangeString, rangeStringAux_ascii s h, Function.comp_def]

theorem runesToString_pair (c0 c1 : UInt8) (h0 : c0.toNat < 0x80) (h1 : c1.toNat < 0x80) :
    runesToString [c0.toNat, c1.toNat] = [c0, c1] := by
  have e0 : c0.toNat ≤ 0x7F := by omega
  have e1 : c1.toNat ≤ 0x7F := by omega
  simp [runesToString, encodeRune, e0, e1, ofNat_toNat]

set_option maxRecDepth 100000 in
theorem hexDigit_table : ∀ n : Fin 256, isHexDigit (UInt8.ofNat n.val) = true →
    (UInt8.ofNat n.val).toNat < 0x80 ∧ digitVal (UInt8.ofNat n.val) = some (hexValue (UInt8.ofNat n.val))
      ∧ hexValue (UInt8.ofNat n.val) < 16 := by
  decide

theorem hexDigit_facts (c : UInt8) (h : isHexDigit c = true) :
    c.toNat < 0x80 ∧ digitVal c = some (hexValue c) ∧ hexValue c < 16 := by
  have := hexDigit_table ⟨c.toNat, c.toNat_lt_size⟩
  simpa [ofNat_toNat, h] using this

theorem ParseUint_octet (c0 c1 : UInt8) (h0 : isHexDigit c0 = true)
    (h1 : isHexDigit c1 = true) :
    ParseUint [c0, c1] 16 8 = .ok (16 * hexValue c0 + hexValue c1) := by
  obtain ⟨_, d0, l0⟩ := hexDigit_facts c0 h0
  obtain ⟨_, d1, l1⟩ := hexDigit_facts c1 h1
  have a0 : ¬ 16 ≤ hexValue c0 := by omega
  have a1 : ¬ 16 ≤ hexValue c1 := by omega
  have b0 : hexValue c0 % 18446744073709551616 = hexValue c0 := by omega
  have b1 : ¬ 1152921504606846976 ≤ hexValue c0 := by omega
  have b2 : (hexValue c0 * 16 % 18446744073709551616 + hexValue c1) % 18446744073709551616
      = 16 * hexValue c0 + hexValue c1 := by omega
  have b3 : hexValue c0 * 16 % 18446744073709551616 = 16 * hexValue c0 := by omega
  have b4 : ¬ (16 * hexValue c0 + hexValue c1 < 16 * hexValue c0
      ∨ 255 < 16 * hexValue c0 + hexValue c1) := by omega
  have b5 : (16 * hexValue c0 + hexValue c1) % 18446744073709551616
      = 16 * hexValue c0 + hexValue c1 := by omega
  have b6 : ¬ 255 < hexValue c0 := by omega
  simp [ParseUint, parseUintLoop, d0, d1, a0, a1, b0, b1, b2, b3, b4, b5, b6]
  omega

theorem reverseLoop_hex : ∀ (n : Nat) (s : GoString), s.length = 2 * n →
    (∀ c ∈ s, isHexDigit c = true) → ∀ (pre post : List UInt8), pre.length = n →
    reverseLoop (s.map UInt8.toNat) ((n : Int) - 1) (pre ++ post)
      = .ok ((hexPairs s).reverse ++ post) := by
  intro n
  induction n with
  | zero =>
    intro s hs _ pre post hpre
    have hs' : s = [] := List.length_eq_zero.mp (by omega)
    have hp : pre = [] := List.length_eq_zero.mp hpre
    subst hs' hp
    simp [reverseLoop, hexPairs]
  | succ n ih =>
    intro s hs hhex pre post hpre
    match s, hs, hhex with
    | [], hs, _ => simp at hs
    | [_], hs, _ => simp at hs; omega
    | c0 :: c1 :: rest, hs, hhex =>
      have h0 : isHexDigit c0 = true := hhex c0 (by simp)
      have h1 : isHexDigit c1 = true := hhex c1 (by simp)
      have hrest : ∀ c ∈ rest, isHexDigit c = true := fun c hc => hhex c (by simp [hc])
      have hlen : rest.length = 2 * n := by simp at hs; omega
      rcases List.eq_nil_or_concat pre with hp | ⟨pre', x, hp⟩
      · subst hp; simp at hpre
      · subst hp
        have hpre' : pre'.length = n := by simpa using hpre
        have hj : ((n + 1 : Nat) : Int) - 1 = (n : Int) := by omega
        have hin : (0 : Int) ≤ (n : Int) ∧ (n : Int) < ((pre'.concat x ++ post).length : Int) := by
          simp [hpre']
        have hset : (pre'.concat x ++ post).set n
            (UInt8.ofNat (16 * hexValue c0 + hexValue c1))
            = pre' ++ (UInt8.ofNat (16 * hexValue c0 + hexValue c1) :: post) := by
          simp [List.concat_eq_append, List.append_assoc, ← hpre']
        have key := ih rest hlen hrest pre'
          (UInt8.ofNat (16 * hexValue c0 + hexValue c1) :: post) hpre'
        simp only [List.map_cons, reverseLoop,
          runesToString_pair c0 c1 (hexDigit_facts c0 h0).1 (hexDigit_facts c1 h1).1,
          ParseUint_octet c0 c1 h0 h1, hj, hin, and_self, if_true, Int.toNat_ofNat, hset, key,
          hexPairs, List.reverse_cons, List.append_assoc, List.singleton_append]

/-- The length of the byte sequence encoded by a hex string. -/
theorem hexPairs_length : ∀ (n : Nat) (s : GoString), s.length = 2 * n →
    (hexPairs s).length = n := by
  intro n
  induction n with
  | zero =>
    intro s hs
    have hs' : s = [] := List.length_eq_zero.mp (by omega)
    subst hs'; rfl
  | succ n ih =>
    intro s hs
    match s, hs with
    | [], hs => simp at hs
    | [_], hs => simp at hs; omega
    | c0 :: c1 :: rest, hs =>
      have hlen : rest.length = 2 * n := by simp at hs; omega
      simp [hexPairs, ih rest hlen]

theorem reverseBytesInHexWord_of_hex (h : GoString) (hhex : ∀ c ∈ h, isHexDigit c = true)
    (heven : h.length % 2 = 0) :
    reverseBytesInHexWord h = .ok (hexPairs h).reverse := by
  have hascii : ∀ c ∈ h, c.toNat < 0x80 := fun c hc => (hexDigit_facts c (hhex c hc)).1
  have hlen : h.length = 2 * (h.length / 2) := by omega
  have key := reverseLoop_hex (h.length / 2) h hlen hhex
    (List.replicate (h.length / 2) (0 : UInt8)) [] (by simp)
  simp only [List.append_nil] at key
  unfold reverseBytesInHexWord
  rw [if_neg (by omega)]
  simp only [toRunes_ascii h hascii, List.length_map, List.length_replicate]
  exact key

/-! ## Lemmas: the address parsers -/

theorem ipv6Parser_parseAddress_words (str : GoString) (hlen : str.length = 32) :
    ipv6Parser.parseAddress str =
      (reverseBytesInHexWord (word str 0)).andThen .reversingWord fun b0 =>
      (reverseBytesInHexWord (word str 1)).andThen .reversingWord fun b1 =>
      (reverseBytesInHexWord (word str 2)).andThen .reversingWord fun b2 =>
      (reverseBytesInHexWord (word str 3)).andThen .reversingWord fun b3 =>
      .ok (b0 ++ b1 ++ b2 ++ b3) := by
  simp [ipv6Parser.parseAddress, ipv6Loop, sliceString, word, hlen, nibblesInIPv6Address,
    bytesInIPv6Address, wordsInIPv6Address, nibblesIn32BitWord, List.append_assoc]

theorem hexPairs_append : ∀ (n : Nat) (s t : GoString), s.length = 2 * n →
    hexPairs (s ++ t) = hexPairs s ++ hexPairs t := by
  intro n
  induction n with
  | zero =>
    intro s t hs
    have hs' : s = [] := List.length_eq_zero.mp (by omega)
    subst hs'; simp [hexPairs]
  | succ n ih =>
    intro s t hs
    match s, hs with
    | [], hs => simp at hs
    | [_], hs => simp at hs; omega
    | c0 :: c1 :: rest, hs =>
      have hlen : rest.length = 2 * n := by simp at hs; omega
      simp [hexPairs, ih rest t hlen]

theorem word_length (str : GoString) (hlen : str.length = 32) (w : Nat) (hw : w < 4) :
    (word str w).length = 8 := by
  simp [word, hlen]; omega

theorem words_append (str : GoString) (hlen : str.length = 32) :
    str = word str 0 ++ (word str 1 ++ (word str 2 ++ word str 3)) := by
  have e3 : word str 3 = str.drop 24 := by
    simp only [word]; exact List.take_of_length_le (by simp [hlen])
  have a2 : word str 2 ++ str.drop 24 = str.drop 16 := by
    have := List.take_append_drop 8 (str.drop 16)
    simpa [word, List.drop_drop] using this
  have a1 : word str 1 ++ str.drop 16 = str.drop 8 := by
    have := List.take_append_drop 8 (str.drop 8)
    simpa [word, List.drop_drop] using this
  have a0 : word str 0 ++ str.drop 8 = str := by
    have := List.take_append_drop 8 str
    simp [word, this]
  rw [e3, a2, a1, a0]

theorem mem_word (str : GoString) (w : Nat) (c : UInt8) (hc : c ∈ word str w) : c ∈ str :=
  List.mem_of_mem_drop (List.mem_of_mem_take hc)

theorem length_four {α : Type} (l : List α) (h : l.length = 4) :
    ∃ a b c d, l = [a, b, c, d] := by
  match l, h with
  | [a, b, c, d], _ => exact ⟨a, b, c, d, rfl⟩

theorem ipv6Parser_parseAddress_of_hex (str : GoString) (hlen : str.length = 32)
    (hhex : ∀ c ∈ str, isHexDigit c = true) :
    ipv6Parser.parseAddress str =
      .ok ((hexPairs (word str 0)).reverse ++ (hexPairs (word str 1)).reverse
        ++ (hexPairs (word str 2)).reverse ++ (hexPairs (word str 3)).reverse) := by
  have hw : ∀ w, w < 4 → reverseBytesInHexWord (word str w)
      = .ok (hexPairs (word str w)).reverse := fun w hw =>
    reverseBytesInHexWord_of_hex _ (fun c hc => hhex c (mem_word str w c hc))
      (by rw [word_length str hlen w hw])
  rw [ipv6Parser_parseAddress_words str hlen]
  simp [hw, Outcome.andThen]

theorem hexPairs_words (str : GoString) (hlen : str.length = 32) :
    hexPairs str = hexPairs (word str 0) ++ hexPairs (word str 1)
      ++ hexPairs (word str 2) ++ hexPairs (word str 3) := by
  have h0 := word_length str hlen 0 (by omega)
  have h1 := word_length str hlen 1 (by omega)
  have h2 := word_length str hlen 2 (by omega)
  conv_lhs => rw [words_append str hlen]
  rw [hexPairs_append 4 _ _ h0, hexPairs_append 4 _ _ h1, hexPairs_append 4 _ _ h2]
  simp [List.append_assoc]

theorem ipv4Parser_parseAddress_of_hex (str : GoString) (hlen : str.length = 8)
    (hhex : ∀ c ∈ str, isHexDigit c = true) :
    ipv4Parser.parseAddress str = .ok (hexPairs str).reverse := by
  simp [ipv4Parser.parseAddress, hlen, nibblesInIPv4Address,
    reverseBytesInHexWord_of_hex str hhex (by rw [hlen]), Outcome.andThen]

/-! ## Lemmas: encoding an address -/

theorem hexDigitOf_facts : ∀ (upper : Bool) (n : Fin 16),
    isHexDigit (hexDigitOf upper n.val) = true ∧ hexValue (hexDigitOf upper n.val) = n.val := by
  decide

theorem hexPairs_encodeByte (upper : Bool) (b : UInt8) (rest : GoString) :
    hexPairs (encodeByte upper b ++ rest) = b :: hexPairs rest := by
  have hb := b.toNat_lt_size
  simp only [UInt8.size] at hb
  have h1 := (hexDigitOf_facts upper ⟨b.toNat / 16, by omega⟩).2
  have h2 := (hexDigitOf_facts upper ⟨b.toNat % 16, by omega⟩).2
  simp only at h1 h2
  have e : 16 * (b.toNat / 16) + b.toNat % 16 = b.toNat := by omega
  simp [encodeByte, hexPairs, h1, h2, e, ofNat_toNat]

theorem hexPairs_encodeHex (upper : Bool) (bs : List UInt8) :
    hexPairs (encodeHex upper bs) = bs := by
  induction bs with
  | nil => rfl
  | cons b t ih =>
    have : encodeHex upper (b :: t) = encodeByte upper b ++ encodeHex upper t := by
      simp [encodeHex]
    rw [this, hexPairs_encodeByte, ih]

theorem encodeHex_length (upper : Bool) (bs : List UInt8) :
    (encodeHex upper bs).length = 2 * bs.length := by
  induction bs with
  | nil => rfl
  | cons b t ih =>
    have : encodeHex upper (b :: t) = encodeByte upper b ++ encodeHex upper t := by
      simp [encodeHex]
    rw [this, List.length_append, ih]
    simp [encodeByte]; omega

theorem encodeHex_isHex (upper : Bool) (bs : List UInt8) :
    ∀ c ∈ encodeHex upper bs, isHexDigit c = true := by
  intro c hc
  simp only [encodeHex, List.mem_flatMap, encodeByte, List.mem_cons, List.mem_singleton,
    List.not_mem_nil, or_false] at hc
  obtain ⟨b, _, hb⟩ := hc
  have hlt := b.toNat_lt_size
  simp only [UInt8.size] at hlt
  rcases hb with rfl | rfl
  · exact (hexDigitOf_facts upper ⟨b.toNat / 16, by omega⟩).1
  · exact (hexDigitOf_facts upper ⟨b.toNat % 16, by omega⟩).1

theorem hexPairs_digits (upper : Bool) (b : UInt8) (rest : GoString) :
    hexPairs (hexDigitOf upper (b.toNat / 16) :: hexDigitOf upper (b.toNat % 16) :: rest)
      = b :: hexPairs rest :=
  hexPairs_encodeByte upper b rest

theorem hexPairs_nil : hexPairs [] = [] := rfl

theorem length_sixteen {α : Type} (l : List α) (h : l.length = 16) :
    ∃ x0 x1 x2 x3 x4 x5 x6 x7 x8 x9 x10 x11 x12 x13 x14 x15,
      l = [x0, x1, x2, x3, x4, x5, x6, x7, x8, x9, x10, x11, x12, x13, x14, x15] := by
  match l, h with
  | [x0, x1, x2, x3, x4, x5, x6, x7, x8, x9, x10, x11, x12, x13, x14, x15], _ =>
    exact ⟨x0, x1, x2, x3, x4, x5, x6, x7, x8, x9, x10, x11, x12, x13, x14, x15, rfl⟩

theorem ipv6Parser_parseAddress_encodeIPv6 (upper : Bool) (a : List UInt8)
    (h : a.length = 16) : ipv6Parser.parseAddress (encodeIPv6 upper a) = .ok a := by
  obtain ⟨x0, x1, x2, x3, x4, x5, x6, x7, x8, x9, x10, x11, x12, x13, x14, x15, rfl⟩ :=
    length_sixteen a h
  have hlen : (encodeIPv6 upper
      [x0, x1, x2, x3, x4, x5, x6, x7, x8, x9, x10, x11, x12, x13, x14, x15]).length = 32 := by
    simp [encodeIPv6, encodeHex_length, reverseGroups]
  rw [ipv6Parser_parseAddress_of_hex _ hlen (encodeHex_isHex upper _)]
  simp [encodeIPv6, reverseGroups, encodeHex, encodeByte, word, hexPairs_digits, hexPairs_nil]

/-! ## Lemmas: the state table -/

theorem convertState_other (s : GoString) (hs : s ∉ kernelCodes) :
    convertState s = (StateNone, some Err.illegalState) := by
  simp only [kernelCodes, List.mem_cons, List.mem_singleton, List.not_mem_nil, or_false,
    not_or] at hs
  obtain ⟨h1, h2, h3, h4, h5, h6, h7, h8, h9, hA, hB, hC⟩ := hs
  simp only [convertState, h1, h2, h3, h4, h5, h6, h7, h8, h9, hA, hB, hC, if_false]

theorem convertState_accepted (s : GoString) (h : (convertState s).2 = none) :
    s ∈ kernelCodes := by
  by_contra hs
  rw [convertState_other s hs] at h
  exact absurd h (by simp)

theorem kernelCodes_alias : ∀ c1 ∈ kernelCodes, ∀ c2 ∈ kernelCodes,
    (convertState c1).1 = (convertState c2).1 →
    c1 = c2 ∨ (c1 = str "03" ∧ c2 = str "0C") ∨ (c1 = str "0C" ∧ c2 = str "03") := by
  decide

/-! ## Lemmas: the line decoder -/

theorem andThen_eq_ok {α β : Type} (x : Outcome α) (wrap : Err → Err) (k : α → Outcome β)
    (c : β) : x.andThen wrap k = .ok c ↔ ∃ v, x = .ok v ∧ k v = .ok c := by
  cases x <;> simp [Outcome.andThen]

theorem index_eq_ok {α : Type} (xs : List α) (i : Nat) (x : α) :
    index xs i = .ok x ↔ xs.get? i = some x := by
  unfold index
  cases h : xs.get? i <;> simp

theorem parseUintLoop_le (base cutoff maxVal : Nat) : ∀ (s : GoString) (n v : Nat),
    n ≤ maxVal → parseUintLoop base cutoff maxVal s n = .ok v → v ≤ maxVal := by
  intro s
  induction s with
  | nil =>
    intro n v hn h
    simp only [parseUintLoop, Outcome.ok.injEq] at h
    omega
  | cons c cs ih =>
    intro n v hn h
    simp only [parseUintLoop] at h
    split at h
    · exact absurd h (by simp)
    · split_ifs at h with h1 h2 h3
      exact ih _ v (by omega) h

theorem ParseUint_mod (s : GoString) (base bitSize v : Nat)
    (h : ParseUint s base bitSize = .ok v) : v % 2 ^ bitSize = v := by
  unfold ParseUint at h
  split_ifs at h
  have hle := parseUintLoop_le _ _ _ s 0 v (Nat.zero_le _) h
  have hpos : 0 < 2 ^ bitSize := Nat.pow_pos (by decide)
  exact Nat.mod_eq_of_lt (by omega)

theorem parseUID_eq_ok (s : GoString) (v : Nat) :
    parseUID s = .ok v ↔ ParseUint s 10 32 = .ok v := by
  unfold parseUID
  rw [andThen_eq_ok]
  constructor
  · rintro ⟨u, hu, h⟩
    simp only [Outcome.ok.injEq] at h
    rw [← h, ParseUint_mod s 10 32 u hu]; exact hu
  · intro h
    exact ⟨v, h, by rw [ParseUint_mod s 10 32 v h]⟩

theorem parseINode_eq_ok (s : GoString) (v : Nat) :
    parseINode s = .ok v ↔ ParseUint s 10 32 = .ok v := by
  unfold parseINode
  rw [andThen_eq_ok]
  constructor
  · rintro ⟨u, hu, h⟩
    simp only [Outcome.ok.injEq] at h
    rw [← h, ParseUint_mod s 10 32 u hu]; exact hu
  · intro h
    exact ⟨v, h, by rw [ParseUint_mod s 10 32 v h]⟩

theorem parseQueues_ok_inv (s : GoString) (tx rx : Nat) (h : parseQueues s = .ok (tx, rx)) :
    ∃ txField rxField, (Split s 0x3A).get? 0 = some txField
      ∧ (Split s 0x3A).get? 1 = some rxField
      ∧ ParseUint txField 16 32 = .ok tx ∧ ParseUint rxField 16 32 = .ok rx := by
  unfold parseQueues at h
  simp only at h
  split_ifs at h
  simp only [andThen_eq_ok, index_eq_ok, Outcome.ok.injEq, Prod.mk.injEq, subIndexTXQueue,
    subIndexRXQueue] at h
  obtain ⟨txField, h0, t, ht, rxField, h1, r, hr, e1, e2⟩ := h
  rw [ParseUint_mod _ 16 32 t ht] at e1
  rw [ParseUint_mod _ 16 32 r hr] at e2
  subst e1 e2
  exact ⟨txField, rxField, h0, h1, ht, hr⟩

theorem parseAddress_ok_inv (s : GoString) (p : ipParser) (addr : List UInt8) (port : Nat)
    (h : parseAddress s p = .ok (addr, port)) :
    ∃ ipField portField, (Split s 0x3A).get? 0 = some ipField
      ∧ (Split s 0x3A).get? 1 = some portField
      ∧ p.parseAddress ipField = .ok addr ∧ ParseUint portField 16 16 = .ok port := by
  unfold parseAddress at h
  simp only at h
  split_ifs at h
  simp only [andThen_eq_ok, index_eq_ok, Outcome.ok.injEq, Prod.mk.injEq, subIndexIP,
    subIndexPort] at h
  obtain ⟨ipField, h0, a, ha, portField, h1, v, hv, e1, e2⟩ := h
  rw [ParseUint_mod _ 16 16 v hv] at e2
  subst e1 e2
  exact ⟨ipField, portField, h0, h1, ha, hv⟩

theorem parseState_ok_inv (s : GoString) (st : State) (h : parseState s = (st, none)) :
    convertState s = (st, none) := by
  unfold parseState at h
  split at h
  · simp at h
  · next state heq => simp only [Prod.mk.injEq, and_true] at h; rw [heq, h]

theorem toConn_ok_inv (line : GoString) (p : ipParser) (pv : ProtocolVersion)
    (c : Connection) (h : toConn line p pv = .ok c) :
    ∃ localField remField queuesField stateField iNodeField uidField loc rem queues state
        iNode uid,
      (Fields line).get? indexLocalAddress = some localField
      ∧ parseAddress localField p = .ok loc
      ∧ (Fields line).get? indexRemAddress = some remField
      ∧ parseAddress remField p = .ok rem
      ∧ (Fields line).get? indexQueues = some queuesField
      ∧ parseQueues queuesField = .ok queues
      ∧ (Fields line).get? indexState = some stateField
      ∧ convertState stateField = (state, none)
      ∧ (Fields line).get? indexINode = some iNodeField
      ∧ ParseUint iNodeField 10 32 = .ok iNode
      ∧ (Fields line).get? indexUID = some uidField
      ∧ ParseUint uidField 10 32 = .ok uid
      ∧ c = (if state = StateListen then
              NewListeningConnection pv queues.2 loc.1 loc.2 uid iNode
             else NewConnection state pv queues.2 queues.1 loc.1 loc.2 rem.1 rem.2 uid iNode) := by
  unfold toConn at h
  simp only at h
  split_ifs at h
  simp only [andThen_eq_ok, index_eq_ok] at h
  obtain ⟨localField, h1, loc, h2, remField, h3, rem, h4, queuesField, h5, queues, h6,
    stateField, h7, h8⟩ := h
  split at h8
  · exact absurd h8 (by simp)
  · next state hstate =>
    simp only [andThen_eq_ok, index_eq_ok] at h8
    obtain ⟨iNodeField, h9, iNode, h10, uidField, h11, uid, h12, h13⟩ := h8
    refine ⟨localField, remField, queuesField, stateField, iNodeField, uidField, loc, rem,
      queues, state, iNode, uid, h1, h2, h3, h4, h5, h6, h7, parseState_ok_inv _ _ hstate, h9,
      (parseINode_eq_ok _ _).mp h10, h11, (parseUID_eq_ok _ _).mp h12, ?_⟩
    split_ifs at h13 with hl <;> simp only [Outcome.ok.injEq] at h13
    · rw [if_pos hl]; exact h13.symm
    · rw [if_neg hl]; exact h13.symm

theorem convertState_listen_only : ∀ c ∈ kernelCodes,
    (convertState c).1 = StateListen → c = kernelTCPListen := by
  decide

theorem convertState_eq_listen (s : GoString) (h : convertState s = (StateListen, none)) :
    s = kernelTCPListen :=
  convertState_listen_only s (convertState_accepted s (by rw [h])) (by rw [h])

/-! ## The hex word reverser -/

/-- C1: for every string `h` of `2n` hexadecimal digits (either case),
`reverseBytesInHexWord h` succeeds and returns the `n` bytes encoded by the digit
pairs of `h` in reversed order: the bytes are reversed, not the digits. -/
theorem reverseBytesInHexWord_reverses_bytes (n : Nat) (h : GoString)
    (hlen : h.length = 2 * n) (hhex : ∀ c ∈ h, isHexDigit c = true) :
    reverseBytesInHexWord h = .ok (hexPairs h).reverse ∧ (hexPairs h).length = n :=
  ⟨reverseBytesInHexWord_of_hex h hhex (by omega), hexPairs_length n h hlen⟩

/-- The test input of C1: "0DF0FECA" gives the bytes CA FE F0 0D. -/
theorem reverseBytesInHexWord_reverses_bytes_witness :
    (reverseBytesInHexWord (str "0DF0FECA") = .ok (hexPairs (str "0DF0FECA")).reverse
      ∧ (hexPairs (str "0DF0FECA")).length = 4)
    ∧ (hexPairs (str "0DF0FECA")).reverse = [0xCA, 0xFE, 0xF0, 0x0D] :=
  ⟨reverseBytesInHexWord_reverses_bytes 4 (str "0DF0FECA") (by decide) (by decide), by decide⟩

set_option maxRecDepth 100000 in
/-- C2, the failing input: the 8-byte string "000000é" holds seven characters, the
last one not a hex digit.  Its byte length passes the even-length check, its
seven runes are walked in pairs, and the read of `src[7]` panics: neither bytes
nor an error is returned, here, in `ipv4Parser.parseAddress`, and in `toConn` on
a table line that carries the string as its local address. -/
theorem reverseBytesInHexWord_multibyte_panics :
    (str "000000é").length = 8
    ∧ (toRunes (str "000000é")).length = 7
    ∧ (∃ c ∈ str "000000é", isHexDigit c = false)
    ∧ reverseBytesInHexWord (str "000000é") = .panic
    ∧ ipv4Parser.parseAddress (str "000000é") = .panic
    ∧ toConn (str "0: 000000é:1A85 00000000:0000 0A 00000000:00000032 0 0 1000 0 789829")
        .ipv4Parser ProtocolVersionIPv4 = .panic := by
  decide

/-! ## The address parsers -/

/-- C3: for every 32-character hex string, `ipv6Parser.parseAddress` succeeds with
16 bytes, and output byte `4*w+k` is source byte `4*w+(3-k)` for every word `w`
and position `k` below four: bytes are reversed inside each 8-character word,
and the order of the four words is kept. -/
theorem ipv6Parser_parseAddress_reverses_within_words (str : GoString)
    (hlen : str.length = 32) (hhex : ∀ c ∈ str, isHexDigit c = true) :
    ∃ out, ipv6Parser.parseAddress str = .ok out ∧ out.length = 16
      ∧ (hexPairs str).length = 16
      ∧ ∀ w k, w < 4 → k < 4 → out.get? (4 * w + k) = (hexPairs str).get? (4 * w + (3 - k)) := by
  obtain ⟨a0, b0, c0, d0, e0⟩ := length_four _
    (hexPairs_length 4 _ (word_length str hlen 0 (by omega)))
  obtain ⟨a1, b1, c1, d1, e1⟩ := length_four _
    (hexPairs_length 4 _ (word_length str hlen 1 (by omega)))
  obtain ⟨a2, b2, c2, d2, e2⟩ := length_four _
    (hexPairs_length 4 _ (word_length str hlen 2 (by omega)))
  obtain ⟨a3, b3, c3, d3, e3⟩ := length_four _
    (hexPairs_length 4 _ (word_length str hlen 3 (by omega)))
  refine ⟨_, ipv6Parser_parseAddress_of_hex str hlen hhex, ?_, ?_, ?_⟩
  · simp [e0, e1, e2, e3]
  · exact hexPairs_length 16 str (by omega)
  · intro w k hw hk
    rw [hexPairs_words str hlen, e0, e1, e2, e3]
    interval_cases w <;> interval_cases k <;> rfl

/-- The test input of C3: the kernel's text for `::1` decodes to fifteen zero
bytes followed by 0x01. -/
theorem ipv6Parser_parseAddress_reverses_within_words_witness :
    (∃ out, ipv6Parser.parseAddress (str "00000000000000000000000001000000") = .ok out
      ∧ out.length = 16
      ∧ (hexPairs (str "00000000000000000000000001000000")).length = 16
      ∧ ∀ w k, w < 4 → k < 4 → out.get? (4 * w + k)
          = (hexPairs (str "00000000000000000000000001000000")).get? (4 * w + (3 - k)))
    ∧ ipv6Parser.parseAddress (str "00000000000000000000000001000000")
        = .ok [0, 0, 0, 0, 0, 0, 0, 0, 0, 0, 0, 0, 0, 0, 0, 1] :=
  ⟨ipv6Parser_parseAddress_reverses_within_words (str "00000000000000000000000001000000")
    (by decide) (by decide), by decide⟩

/-- C4: for every 8-character hex string encoding the bytes `s0 s1 s2 s3`,
`ipv4Parser.parseAddress` succeeds with exactly `[s3, s2, s1, s0]`, which is the
result of `reverseBytesInHexWord` on the whole string. -/
theorem ipv4Parser_parseAddress_reverses_word (str : GoString) (hlen : str.length = 8)
    (hhex : ∀ c ∈ str, isHexDigit c = true) :
    ∃ s0 s1 s2 s3, hexPairs str = [s0, s1, s2, s3]
      ∧ ipv4Parser.parseAddress str = .ok [s3, s2, s1, s0]
      ∧ ipv4Parser.parseAddress str = reverseBytesInHexWord str := by
  obtain ⟨s0, s1, s2, s3, e⟩ := length_four _ (hexPairs_length 4 str (by omega))
  refine ⟨s0, s1, s2, s3, e, ?_, ?_⟩
  · rw [ipv4Parser_parseAddress_of_hex str hlen hhex, e]; rfl
  · rw [ipv4Parser_parseAddress_of_hex str hlen hhex,
      reverseBytesInHexWord_of_hex str hhex (by omega)]

/-- The test input of C4: "0100007F" decodes to 127.0.0.1. -/
theorem ipv4Parser_parseAddress_reverses_word_witness :
    (∃ s0 s1 s2 s3, hexPairs (str "0100007F") = [s0, s1, s2, s3]
      ∧ ipv4Parser.parseAddress (str "0100007F") = .ok [s3, s2, s1, s0]
      ∧ ipv4Parser.parseAddress (str "0100007F") = reverseBytesInHexWord (str "0100007F"))
    ∧ ipv4Parser.parseAddress (str "0100007F") = .ok [127, 0, 0, 1] :=
  ⟨ipv4Parser_parseAddress_reverses_word (str "0100007F") (by decide) (by decide), by decide⟩

/-- C5: round trip for both families.  Encoding a 4-byte address as the hex
digits of its bytes in reversed order and decoding with `ipv4Parser.parseAddress`
returns the address; encoding a 16-byte address with each 4-byte group reversed
and the groups in order and decoding with `ipv6Parser.parseAddress` returns the
address.  Both hold for upper-case and for lower-case digits. -/
theorem parseAddress_encode_roundtrip (upper : Bool) (a4 a16 : List UInt8)
    (h4 : a4.length = 4) (h16 : a16.length = 16) :
    ipv4Parser.parseAddress (encodeIPv4 upper a4) = .ok a4
      ∧ ipv6Parser.parseAddress (encodeIPv6 upper a16) = .ok a16 := by
  constructor
  · have hlen : (encodeIPv4 upper a4).length = 8 := by
      simp [encodeIPv4, encodeHex_length, h4]
    rw [ipv4Parser_parseAddress_of_hex _ hlen (encodeHex_isHex upper _)]
    simp [encodeIPv4, hexPairs_encodeHex]
  · exact ipv6Parser_parseAddress_encodeIPv6 upper a16 h16

/-- An instance of C5: 192.168.1.3 is written "0301A8C0", and the address
2001:db8::1 is written "B80D0120000000000000000001000000". -/
theorem parseAddress_encode_roundtrip_witness :
    (ipv4Parser.parseAddress (encodeIPv4 true [192, 168, 1, 3]) = .ok [192, 168, 1, 3]
      ∧ ipv6Parser.parseAddress (encodeIPv6 true
          [0x20, 0x01, 0x0D, 0xB8, 0, 0, 0, 0, 0, 0, 0, 0, 0, 0, 0, 1])
          = .ok [0x20, 0x01, 0x0D, 0xB8, 0, 0, 0, 0, 0, 0, 0, 0, 0, 0, 0, 1])
    ∧ encodeIPv4 true [192, 168, 1, 3] = str "0301A8C0"
    ∧ encodeIPv6 true [0x20, 0x01, 0x0D, 0xB8, 0, 0, 0, 0, 0, 0, 0, 0, 0, 0, 0, 1]
        = str "B80D0120000000000000000001000000" :=
  ⟨parseAddress_encode_roundtrip true [192, 168, 1, 3]
    [0x20, 0x01, 0x0D, 0xB8, 0, 0, 0, 0, 0, 0, 0, 0, 0, 0, 0, 1] (by decide) (by decide),
    by decide, by decide⟩

/-- C6: a string whose length `len(str)` is not 8 makes `ipv4Parser.parseAddress`
return an error, and one whose length is not 32 makes `ipv6Parser.parseAddress`
return an error.  The error is the length error whatever the characters are: the
check comes before any hex decoding. -/
theorem parseAddress_wrong_length (s4 s6 : GoString) (h4 : s4.length ≠ 8)
    (h6 : s6.length ≠ 32) :
    ipv4Parser.parseAddress s4 = .error .ipv4Length
      ∧ ipv6Parser.parseAddress s6 = .error .ipv6Length := by
  constructor
  · simp [ipv4Parser.parseAddress, nibblesInIPv4Address, h4]
  · simp [ipv6Parser.parseAddress, nibblesInIPv6Address, bytesInIPv6Address, h6]

/-- The test inputs of C6: "BADADDRESS" and "BADIPV6ADDRESS". -/
theorem parseAddress_wrong_length_witness :
    ipv4Parser.parseAddress (str "BADADDRESS") = .error .ipv4Length
      ∧ ipv6Parser.parseAddress (str "BADIPV6ADDRESS") = .error .ipv6Length :=
  parseAddress_wrong_length (str "BADADDRESS") (str "BADIPV6ADDRESS") (by decide) (by decide)

/-! ## The state code mapper -/

/-- C7: `convertState` returns the documented state for each of the twelve codes
of its table, and for every other string it returns an error together with
`StateNone`, never a fallback state; this includes "00", "0D" and the lower-case
forms "0a", "0b", "0c". -/
theorem convertState_closed_table :
    convertState (str "01") = (StateEstablished, none)
    ∧ convertState (str "02") = (StateSynSent, none)
    ∧ convertState (str "03") = (StateSynReceived, none)
    ∧ convertState (str "04") = (StateFinWait1, none)
    ∧ convertState (str "05") = (StateFinWait2, none)
    ∧ convertState (str "06") = (StateTimeWait, none)
    ∧ convertState (str "07") = (StateClosed, none)
    ∧ convertState (str "08") = (StateCloseWait, none)
    ∧ convertState (str "09") = (StateLastAck, none)
    ∧ convertState (str "0A") = (StateListen, none)
    ∧ convertState (str "0B") = (StateClosing, none)
    ∧ convertState (str "0C") = (StateSynReceived, none)
    ∧ (∀ s : GoString,
        s ∉ [str "01", str "02", str "03", str "04", str "05", str "06", str "07", str "08",
          str "09", str "0A", str "0B", str "0C"] →
        convertState s = (StateNone, some Err.illegalState))
    ∧ convertState (str "00") = (StateNone, some Err.illegalState)
    ∧ convertState (str "0D") = (StateNone, some Err.illegalState)
    ∧ convertState (str "0a") = (StateNone, some Err.illegalState)
    ∧ convertState (str "0b") = (StateNone, some Err.illegalState)
    ∧ convertState (str "0c") = (StateNone, some Err.illegalState) := by
  refine ⟨by decide, by decide, by decide, by decide, by decide, by decide, by decide,
    by decide, by decide, by decide, by decide, by decide, ?_, by decide, by decide,
    by decide, by decide, by decide⟩
  intro s hs
  exact convertState_other s hs

/-- C8 as stated fails: the two different accepted codes "03" and "0C" map to the
same state, SYN-RECEIVED. -/
theorem convertState_not_injective :
    (convertState (str "03")).2 = none ∧ (convertState (str "0C")).2 = none
      ∧ str "03" ≠ str "0C"
      ∧ (convertState (str "03")).1 = (convertState (str "0C")).1 := by
  decide

/-- C8 amended: every one of the eleven symbolic states is the image of an
accepted code, and two different accepted codes map to the same state only when
they are "03" and "0C", which both map to SYN-RECEIVED. -/
theorem convertState_onto_and_injective_up_to_alias :
    (∀ st : State, st ≠ StateNone → ∃ code, convertState code = (st, none))
    ∧ (∀ c1 c2 : GoString, (convertState c1).2 = none → (convertState c2).2 = none →
        (convertState c1).1 = (convertState c2).1 →
        c1 = c2 ∨ (c1 = str "03" ∧ c2 = str "0C") ∨ (c1 = str "0C" ∧ c2 = str "03")) := by
  constructor
  · intro st hst
    cases st
    · exact ⟨str "0A", by decide⟩
    · exact ⟨str "02", by decide⟩
    · exact ⟨str "03", by decide⟩
    · exact ⟨str "01", by decide⟩
    · exact ⟨str "04", by decide⟩
    · exact ⟨str "05", by decide⟩
    · exact ⟨str "08", by decide⟩
    · exact ⟨str "0B", by decide⟩
    · exact ⟨str "09", by decide⟩
    · exact ⟨str "06", by decide⟩
    · exact ⟨str "07", by decide⟩
    · exact absurd rfl hst
  · intro c1 c2 h1 h2 h
    exact kernelCodes_alias c1 (convertState_accepted c1 h1) c2 (convertState_accepted c2 h2) h

/-! ## The line decoder -/

/-- C9: when `toConn` decodes a line whose state token (index 3) is the listening
code "0A", the record has State LISTEN, zero buffer sizes, zero remote port, the
requested protocol version, the local address and port decoded from the index-1
token, AcceptBacklog equal to the hexadecimal value of the second part of the
index-4 token (the rx queue), and UID and INode equal to the decimal values of
the index-7 and index-9 tokens. -/
theorem toConn_listening (line : GoString) (p : ipParser) (pv : ProtocolVersion)
    (c : Connection) (hok : toConn line p pv = .ok c)
    (hst : (Fields line).get? indexState = some kernelTCPListen) :
    c.State = StateListen ∧ c.ReceiveBufferSize = 0 ∧ c.SendBufferSize = 0
      ∧ c.RemotePort = 0 ∧ c.ProtocolVersion = pv
      ∧ (∃ localField, (Fields line).get? indexLocalAddress = some localField
          ∧ parseAddress localField p = .ok (c.LocalAddr, c.LocalPort))
      ∧ (∃ queuesField rxField, (Fields line).get? indexQueues = some queuesField
          ∧ (Split queuesField 0x3A).get? 1 = some rxField
          ∧ ParseUint rxField 16 32 = .ok c.AcceptBacklog)
      ∧ (∃ uidField, (Fields line).get? indexUID = some uidField
          ∧ ParseUint uidField 10 32 = .ok c.UID)
      ∧ (∃ iNodeField, (Fields line).get? indexINode = some iNodeField
          ∧ ParseUint iNodeField 10 32 = .ok c.INode) := by
  obtain ⟨localField, remField, queuesField, stateField, iNodeField, uidField, loc, rem,
    queues, state, iNode, uid, h1, h2, _, _, h5, h6, h7, h8, h9, h10, h11, h12, hc⟩ :=
    toConn_ok_inv line p pv c hok
  rw [hst, Option.some.injEq] at h7
  subst h7
  have hstate : state = StateListen := by
    have : convertState kernelTCPListen = (StateListen, none) := by decide
    rw [this, Prod.mk.injEq] at h8
    exact h8.1.symm
  rw [if_pos hstate] at hc
  obtain ⟨txField, rxField, _, hrx, _, hrxv⟩ := parseQueues_ok_inv queuesField queues.1 queues.2 h6
  subst hc
  exact ⟨rfl, rfl, rfl, rfl, rfl, ⟨localField, h1, h2⟩, ⟨queuesField, rxField, h5, hrx, hrxv⟩,
    ⟨uidField, h11, h12⟩, ⟨iNodeField, h9, h10⟩⟩

set_option maxRecDepth 100000 in
/-- The test line of C9 decodes to backlog 50, 127.0.0.1:6789, uid 1000, inode
789829. -/
theorem toConn_listening_witness :
    toConn listeningLineIPv4 .ipv4Parser ProtocolVersionIPv4
        = .ok (NewListeningConnection ProtocolVersionIPv4 50 [127, 0, 0, 1] 6789 1000 789829)
      ∧ (Fields listeningLineIPv4).get? indexState = some kernelTCPListen
      ∧ (NewListeningConnection ProtocolVersionIPv4 50 [127, 0, 0, 1] 6789 1000 789829).State
          = StateListen :=
  ⟨by decide, by decide,
    (toConn_listening listeningLineIPv4 .ipv4Parser ProtocolVersionIPv4
      (NewListeningConnection ProtocolVersionIPv4 50 [127, 0, 0, 1] 6789 1000 789829)
      (by decide) (by decide)).1⟩

/-- C10: when `toConn` decodes a line whose state token (index 3) is not the
listening code, the record has AcceptBacklog 0, SendBufferSize and
ReceiveBufferSize equal to the hexadecimal values of the first (tx) and second
(rx) part of the index-4 token, the local and remote address and port decoded
from the index-1 and index-2 tokens, State equal to `convertState` of the
index-3 token (not LISTEN), and UID and INode equal to the decimal values of the
index-7 and index-9 tokens. -/
theorem toConn_non_listening (line : GoString) (p : ipParser) (pv : ProtocolVersion)
    (c : Connection) (hok : toConn line p pv = .ok c)
    (hst : (Fields line).get? indexState ≠ some kernelTCPListen) :
    c.AcceptBacklog = 0 ∧ c.State ≠ StateListen ∧ c.ProtocolVersion = pv
      ∧ (∃ queuesField txField rxField, (Fields line).get? indexQueues = some queuesField
          ∧ (Split queuesField 0x3A).get? 0 = some txField
          ∧ (Split queuesField 0x3A).get? 1 = some rxField
          ∧ ParseUint txField 16 32 = .ok c.SendBufferSize
          ∧ ParseUint rxField 16 32 = .ok c.ReceiveBufferSize)
      ∧ (∃ localField, (Fields line).get? indexLocalAddress = some localField
          ∧ parseAddress localField p = .ok (c.LocalAddr, c.LocalPort))
      ∧ (∃ remField, (Fields line).get? indexRemAddress = some remField
          ∧ parseAddress remField p = .ok (c.RemoteAddr, c.RemotePort))
      ∧ (∃ stateField, (Fields line).get? indexState = some stateField
          ∧ convertState stateField = (c.State, none))
      ∧ (∃ uidField, (Fields line).get? indexUID = some uidField
          ∧ ParseUint uidField 10 32 = .ok c.UID)
      ∧ (∃ iNodeField, (Fields line).get? indexINode = some iNodeField
          ∧ ParseUint iNodeField 10 32 = .ok c.INode) := by
  obtain ⟨localField, remField, queuesField, stateField, iNodeField, uidField, loc, rem,
    queues, state, iNode, uid, h1, h2, h3, h4, h5, h6, h7, h8, h9, h10, h11, h12, hc⟩ :=
    toConn_ok_inv line p pv c hok
  have hstate : state ≠ StateListen := by
    intro hl
    rw [hl] at h8
    rw [convertState_eq_listen stateField h8] at h7
    exact hst h7
  rw [if_neg hstate] at hc
  obtain ⟨txField, rxField, htx, hrx, htxv, hrxv⟩ :=
    parseQueues_ok_inv queuesField queues.1 queues.2 h6
  subst hc
  exact ⟨rfl, hstate, rfl, ⟨queuesField, txField, rxField, h5, htx, hrx, htxv, hrxv⟩,
    ⟨localField, h1, h2⟩, ⟨remField, h3, h4⟩, ⟨stateField, h7, h8⟩, ⟨uidField, h11, h12⟩,
    ⟨iNodeField, h9, h10⟩⟩

set_option maxRecDepth 100000 in
/-- The test line of C10 decodes to ESTABLISHED, 192.168.1.3:54176 to
88.221.16.125:443, uid 1000, inode 380687. -/
theorem toConn_non_listening_witness :
    toConn establishedLineIPv4 .ipv4Parser ProtocolVersionIPv4
        = .ok (NewConnection StateEstablished ProtocolVersionIPv4 0 0 [192, 168, 1, 3] 54176
            [88, 221, 16, 125] 443 1000 380687)
      ∧ (Fields establishedLineIPv4).get? indexState ≠ some kernelTCPListen
      ∧ (NewConnection StateEstablished ProtocolVersionIPv4 0 0 [192, 168, 1, 3] 54176
            [88, 221, 16, 125] 443 1000 380687).AcceptBacklog = 0 :=
  ⟨by decide, by decide,
    (toConn_non_listening establishedLineIPv4 .ipv4Parser ProtocolVersionIPv4
      (NewConnection StateEstablished ProtocolVersionIPv4 0 0 [192, 168, 1, 3] 54176
        [88, 221, 16, 125] 443 1000 380687)
      (by decide) (by decide)).1⟩

/-! ## Lemmas: the table decoder -/

theorem connsLoop_filter (p : ipParser) (pv : ProtocolVersion) (e : Option Err) :
    ∀ (lines : List GoString) (conns : List Connection),
      connsLoop p pv lines e false conns
        = connsLoop p pv (lines.filter fun l => decide (l ≠ [])) e false conns := by
  intro lines
  induction lines with
  | nil => intro conns; rfl
  | cons l rest ih =>
    intro conns
    by_cases hl : l = []
    · subst hl
      simp only [connsLoop, List.length_nil, if_true, ne_eq, not_true_eq_false, decide_False,
        List.filter_cons_of_neg, Bool.false_eq_true, not_false_eq_true]
      exact ih conns
    · have hlen : l.length ≠ 0 := fun h => hl (List.length_eq_zero.mp h)
      simp only [connsLoop, hlen, if_false, ne_eq, hl, not_false_eq_true, decide_True,
        List.filter_cons_of_pos, Bool.false_eq_true]
      cases toConn l p pv with
      | ok c => simp only [Outcome.andThen]; exact ih _
      | error e => rfl
      | panic => rfl

theorem GetConnectionsFromReader_lines (reader : Reader) (pv : ProtocolVersion)
    (l0 : GoString) (rest : List GoString) (e : Option Err)
    (h : scanLines reader = (l0 :: rest, e)) :
    GetConnectionsFromReader reader pv
      = (ProtocolVersion.parser pv).andThen .gettingParser fun p =>
          connsLoop p pv (rest.filter fun l => decide (l ≠ [])) e false [] := by
  unfold GetConnectionsFromReader
  rw [h]
  cases ProtocolVersion.parser pv with
  | ok p => simp only [Outcome.andThen, connsLoop, if_true]; exact connsLoop_filter p pv e rest []
  | error e => rfl
  | panic => rfl

theorem connsLoop_not_ok (p : ipParser) (pv : ProtocolVersion) (e : Option Err)
    (line : GoString) (hne : line ≠ []) (hfail : ∀ c, toConn line p pv ≠ .ok c) :
    ∀ (lines : List GoString), line ∈ lines → ∀ (conns out : List Connection),
      connsLoop p pv lines e false conns ≠ .ok out := by
  intro lines
  induction lines with
  | nil => intro h; exact absurd h (List.not_mem_nil _)
  | cons l rest ih =>
    intro hmem conns out
    by_cases hl : l.length = 0
    · have : l ≠ line := fun h => hne (List.length_eq_zero.mp (h ▸ hl))
      have hmem' : line ∈ rest := by
        rcases List.mem_cons.mp hmem with h | h
        · exact absurd h.symm this
        · exact h
      simp only [connsLoop, hl, if_true, Bool.false_eq_true, if_false]
      exact ih hmem' conns out
    · simp only [connsLoop, hl, if_false, Bool.false_eq_true]
      cases hc : toConn l p pv with
      | ok c =>
        simp only [Outcome.andThen]
        rcases List.mem_cons.mp hmem with h | h
        · exact absurd (h ▸ hc) (hfail c)
        · exact ih h _ out
      | error e => simp [Outcome.andThen]
      | panic => simp [Outcome.andThen]

theorem connsLoop_error (p : ipParser) (pv : ProtocolVersion) (e : Option Err)
    (line : GoString) (hne : line ≠ []) (hfail : ∃ err, toConn line p pv = .error err) :
    ∀ (lines : List GoString), line ∈ lines → (∀ l ∈ lines, toConn l p pv ≠ .panic) →
      ∀ (conns : List Connection), ∃ err, connsLoop p pv lines e false conns = .error err := by
  intro lines
  induction lines with
  | nil => intro h; exact absurd h (List.not_mem_nil _)
  | cons l rest ih =>
    intro hmem hnp conns
    have hnp' : ∀ l' ∈ rest, toConn l' p pv ≠ .panic := fun l' h =>
      hnp l' (List.mem_cons_of_mem _ h)
    by_cases hl : l.length = 0
    · have : l ≠ line := fun h => hne (List.length_eq_zero.mp (h ▸ hl))
      have hmem' : line ∈ rest := by
        rcases List.mem_cons.mp hmem with h | h
        · exact absurd h.symm this
        · exact h
      simp only [connsLoop, hl, if_true, Bool.false_eq_true, if_false]
      exact ih hmem' hnp' conns
    · simp only [connsLoop, hl, if_false, Bool.false_eq_true]
      cases hc : toConn l p pv with
      | ok c =>
        simp only [Outcome.andThen]
        rcases List.mem_cons.mp hmem with h | h
        · obtain ⟨err, herr⟩ := hfail
          rw [h, hc] at herr
          exact absurd herr (by simp)
        · exact ih h hnp' _
      | error e => exact ⟨_, rfl⟩
      | panic => exact absurd hc (hnp l (List.mem_cons_self _ _))

theorem index_ne_error {α : Type} (xs : List α) (i : Nat) (e : Err) :
    index xs i ≠ .error e := by
  unfold index
  cases xs.get? i <;> simp

theorem andThen_ne_error {α β : Type} (x : Outcome α) (wrap : Err → Err)
    (k : α → Outcome β) (target : Err) (h1 : ∀ e, x = .error e → wrap e ≠ target)
    (h2 : ∀ v, k v ≠ .error target) : x.andThen wrap k ≠ .error target := by
  cases x with
  | ok v => exact h2 v
  | error e =>
    intro h
    simp only [Outcome.andThen, Outcome.error.injEq] at h
    exact h1 e rfl h
  | panic => simp [Outcome.andThen]

theorem toConn_too_few_fields (line : GoString) (p : ipParser) (pv : ProtocolVersion)
    (h : (Fields line).length < 10) : toConn line p pv = .error .tooFewFields := by
  simp [toConn, minNoOfFields, h]

theorem toConn_enough_fields (line : GoString) (p : ipParser) (pv : ProtocolVersion)
    (h : 10 ≤ (Fields line).length) : toConn line p pv ≠ .error .tooFewFields := by
  unfold toConn
  simp only [minNoOfFields, Nat.not_lt.mpr h, if_false]
  refine andThen_ne_error _ _ _ _ (fun e he => absurd he (index_ne_error _ _ _)) (fun _ => ?_)
  refine andThen_ne_error _ _ _ _ (fun e _ => by simp) (fun _ => ?_)
  refine andThen_ne_error _ _ _ _ (fun e he => absurd he (index_ne_error _ _ _)) (fun _ => ?_)
  refine andThen_ne_error _ _ _ _ (fun e _ => by simp) (fun _ => ?_)
  refine andThen_ne_error _ _ _ _ (fun e he => absurd he (index_ne_error _ _ _)) (fun _ => ?_)
  refine andThen_ne_error _ _ _ _ (fun e _ => by simp) (fun _ => ?_)
  refine andThen_ne_error _ _ _ _ (fun e he => absurd he (index_ne_error _ _ _)) (fun _ => ?_)
  split
  · simp
  · refine andThen_ne_error _ _ _ _ (fun e he => absurd he (index_ne_error _ _ _)) (fun _ => ?_)
    refine andThen_ne_error _ _ _ _ (fun e _ => by simp) (fun _ => ?_)
    refine andThen_ne_error _ _ _ _ (fun e he => absurd he (index_ne_error _ _ _)) (fun _ => ?_)
    refine andThen_ne_error _ _ _ _ (fun e _ => by simp) (fun _ => ?_)
    split <;> simp

theorem GetConnectionsFromReader_not_ok (reader : Reader) (pv : ProtocolVersion)
    (l0 line : GoString) (rest : List GoString) (e : Option Err)
    (hscan : scanLines reader = (l0 :: rest, e)) (hmem : line ∈ rest) (hne : line ≠ [])
    (hfail : ∀ p c, toConn line p pv ≠ .ok c) (conns : List Connection) :
    GetConnectionsFromReader reader pv ≠ .ok conns := by
  unfold GetConnectionsFromReader
  rw [hscan]
  cases ProtocolVersion.parser pv with
  | ok p =>
    simp only [Outcome.andThen, connsLoop, if_true]
    exact connsLoop_not_ok p pv e line hne (hfail p) rest hmem [] conns
  | error e => simp [Outcome.andThen]
  | panic => simp [Outcome.andThen]

theorem GetConnectionsFromReader_error (reader : Reader) (pv : ProtocolVersion)
    (l0 line : GoString) (rest : List GoString) (e : Option Err)
    (hscan : scanLines reader = (l0 :: rest, e)) (hmem : line ∈ rest) (hne : line ≠ [])
    (hfail : ∀ p, ∃ err, toConn line p pv = .error err)
    (hnp : ∀ p, ∀ l ∈ rest, toConn l p pv ≠ .panic) :
    ∃ err, GetConnectionsFromReader reader pv = .error err := by
  unfold GetConnectionsFromReader ProtocolVersion.parser
  rw [hscan]
  split_ifs
  · simp only [Outcome.andThen, connsLoop, if_true]
    exact connsLoop_error _ pv e line hne (hfail _) rest hmem (hnp _) []
  · simp only [Outcome.andThen, connsLoop, if_true]
    exact connsLoop_error _ pv e line hne (hfail _) rest hmem (hnp _) []
  · exact ⟨_, rfl⟩

/-! ## The table decoder -/

set_option maxRecDepth 100000 in
/-- C11, the failing input: a table of three lines, the header, a line whose local
address is "000000é", and the three-token line of the low-field-count test.
`toConn` returns an error on the third line, yet `GetConnectionsFromReader` does
not return an error: it panics on the second line (the defect of C2). -/
theorem GetConnectionsFromReader_panics_before_failing_line :
    scanLines (tableReader [headerLineIPv4, multibyteLineIPv4, shortLineIPv4])
        = ([headerLineIPv4, multibyteLineIPv4, shortLineIPv4], none)
      ∧ toConn shortLineIPv4 .ipv4Parser ProtocolVersionIPv4 = .error .tooFewFields
      ∧ toConn multibyteLineIPv4 .ipv4Parser ProtocolVersionIPv4 = .panic
      ∧ GetConnectionsFromReader
          (tableReader [headerLineIPv4, multibyteLineIPv4, shortLineIPv4])
          ProtocolVersionIPv4 = .panic := by
  decide

set_option maxRecDepth 100000 in
/-- C12 as stated fails: with an empty line before the header, the empty line is
the one discarded, the header is decoded as a data line and the decode returns
an error, while the same table without the leading empty line decodes to one
record. -/
theorem GetConnectionsFromReader_leading_empty_line :
    scanLines (tableReader [[], headerLineIPv4, listeningLineIPv4])
        = ([[], headerLineIPv4, listeningLineIPv4], none)
      ∧ scanLines (tableReader [headerLineIPv4, listeningLineIPv4])
        = ([headerLineIPv4, listeningLineIPv4], none)
      ∧ GetConnectionsFromReader (tableReader [[], headerLineIPv4, listeningLineIPv4])
          ProtocolVersionIPv4
        = .error (.parsingEvent (.parsingLocalAddress .tooFewAddressSubfields))
      ∧ GetConnectionsFromReader (tableReader [headerLineIPv4, listeningLineIPv4])
          ProtocolVersionIPv4
        = .ok [NewListeningConnection ProtocolVersionIPv4 50 [127, 0, 0, 1] 6789 1000 789829] := by
  decide

/-- C12 amended: the line discarded as the header is the first line the scanner
delivers, whatever its content and also when it is empty; every later line is
decoded as a data line, so two inputs that differ only in their first line
decode to the same result. -/
theorem GetConnectionsFromReader_discards_first_line (r1 r2 : Reader)
    (pv : ProtocolVersion) (l0 l0' : GoString) (rest : List GoString) (e : Option Err)
    (h1 : scanLines r1 = (l0 :: rest, e)) (h2 : scanLines r2 = (l0' :: rest, e)) :
    GetConnectionsFromReader r1 pv = GetConnectionsFromReader r2 pv
      ∧ GetConnectionsFromReader r1 pv
          = (ProtocolVersion.parser pv).andThen .gettingParser fun p =>
              connsLoop p pv rest e false [] := by
  have e1 : GetConnectionsFromReader r1 pv
      = (ProtocolVersion.parser pv).andThen .gettingParser fun p =>
          connsLoop p pv rest e false [] := by
    unfold GetConnectionsFromReader
    rw [h1]
    cases ProtocolVersion.parser pv <;> simp [Outcome.andThen, connsLoop]
  have e2 : GetConnectionsFromReader r2 pv
      = (ProtocolVersion.parser pv).andThen .gettingParser fun p =>
          connsLoop p pv rest e false [] := by
    unfold GetConnectionsFromReader
    rw [h2]
    cases ProtocolVersion.parser pv <;> simp [Outcome.andThen, connsLoop]
  exact ⟨e1.trans e2.symm, e1⟩

set_option maxRecDepth 100000 in
/-- An instance of C12 amended: an empty first line is discarded like a header,
and the line after it is decoded. -/
theorem GetConnectionsFromReader_discards_first_line_witness :
    (GetConnectionsFromReader (tableReader [[], listeningLineIPv4]) ProtocolVersionIPv4
        = GetConnectionsFromReader (tableReader [headerLineIPv4, listeningLineIPv4])
            ProtocolVersionIPv4
      ∧ GetConnectionsFromReader (tableReader [[], listeningLineIPv4]) ProtocolVersionIPv4
        = (ProtocolVersion.parser ProtocolVersionIPv4).andThen .gettingParser fun p =>
            connsLoop p ProtocolVersionIPv4 [listeningLineIPv4] none false [])
    ∧ GetConnectionsFromReader (tableReader [[], listeningLineIPv4]) ProtocolVersionIPv4
        = .ok [NewListeningConnection ProtocolVersionIPv4 50 [127, 0, 0, 1] 6789 1000 789829] :=
  ⟨GetConnectionsFromReader_discards_first_line (tableReader [[], listeningLineIPv4])
    (tableReader [headerLineIPv4, listeningLineIPv4]) ProtocolVersionIPv4 [] headerLineIPv4
    [listeningLineIPv4] none (by decide) (by decide), by decide⟩

/-- C15: a line that splits on white space into fewer than ten tokens (also zero
tokens) makes `toConn` return the too-few-fields error, and a table that holds
such a non-empty line after its first line yields no records: the decode returns
an error, provided no line of the table makes `toConn` panic.  A line of ten or
more tokens is never rejected with that error. -/
theorem toConn_field_count (short long : GoString) (p : ipParser) (pv : ProtocolVersion)
    (hshort : (Fields short).length < 10) (hlong : 10 ≤ (Fields long).length) :
    toConn short p pv = .error .tooFewFields
      ∧ (∀ (reader : Reader) (pv' : ProtocolVersion) (l0 : GoString) (rest : List GoString)
          (e : Option Err), scanLines reader = (l0 :: rest, e) → short ∈ rest → short ≠ [] →
          (∀ conns, GetConnectionsFromReader reader pv' ≠ .ok conns)
          ∧ ((∀ p', ∀ l ∈ rest, toConn l p' pv' ≠ .panic) →
              ∃ err, GetConnectionsFromReader reader pv' = .error err))
      ∧ toConn long p pv ≠ .error .tooFewFields := by
  refine ⟨toConn_too_few_fields short p pv hshort, ?_, toConn_enough_fields long p pv hlong⟩
  intro reader pv' l0 rest e hscan hmem hne
  constructor
  · intro conns
    refine GetConnectionsFromReader_not_ok reader pv' l0 short rest e hscan hmem hne ?_ conns
    intro p' c
    rw [toConn_too_few_fields short p' pv' hshort]
    simp
  · intro hnp
    exact GetConnectionsFromReader_error reader pv' l0 short rest e hscan hmem hne
      (fun p' => ⟨_, toConn_too_few_fields short p' pv' hshort⟩) hnp

set_option maxRecDepth 100000 in
/-- The test line of C15, "0: 0301A8C0:D3A0 7D10DD58:01BB", has three tokens and
is rejected, alone and inside the test table; the established test line has
seventeen tokens. -/
theorem toConn_field_count_witness :
    (Fields shortLineIPv4).length = 3 ∧ (Fields establishedLineIPv4).length = 17
      ∧ toConn shortLineIPv4 .ipv4Parser ProtocolVersionIPv4 = .error .tooFewFields
      ∧ toConn establishedLineIPv4 .ipv4Parser ProtocolVersionIPv4 ≠ .error .tooFewFields
      ∧ GetConnectionsFromReader (tableReader [headerLineIPv4, shortLineIPv4])
          ProtocolVersionIPv4 = .error (.parsingEvent .tooFewFields) :=
  ⟨by decide, by decide,
    (toConn_field_count shortLineIPv4 establishedLineIPv4 .ipv4Parser ProtocolVersionIPv4
      (by decide) (by decide)).1,
    (toConn_field_count shortLineIPv4 establishedLineIPv4 .ipv4Parser ProtocolVersionIPv4
      (by decide) (by decide)).2.2, by decide⟩

/-- C16: empty lines after the first line produce no record and no error: two
inputs with the same first line, the same scanner error and the same non-empty
lines after the first, in the same order, decode to the same result, so removing
any empty lines after the first leaves the records or the error unchanged. -/
theorem GetConnectionsFromReader_skips_empty_lines (r1 r2 : Reader) (pv : ProtocolVersion)
    (l0 : GoString) (t1 t2 : List GoString) (e : Option Err)
    (h1 : scanLines r1 = (l0 :: t1, e)) (h2 : scanLines r2 = (l0 :: t2, e))
    (hrem : (t2.filter fun l => decide (l ≠ [])) = t1.filter fun l => decide (l ≠ [])) :
    GetConnectionsFromReader r1 pv = GetConnectionsFromReader r2 pv := by
  rw [GetConnectionsFromReader_lines r1 pv l0 t1 e h1,
    GetConnectionsFromReader_lines r2 pv l0 t2 e h2, hrem]

set_option maxRecDepth 100000 in
/-- An instance of C16: the test table with three empty lines added decodes to
the same single record as the test table itself. -/
theorem GetConnectionsFromReader_skips_empty_lines_witness :
    scanLines (tableReader [headerLineIPv4, [], listeningLineIPv4, [], []])
        = ([headerLineIPv4, [], listeningLineIPv4, []], none)
      ∧ GetConnectionsFromReader (tableReader [headerLineIPv4, [], listeningLineIPv4, [], []])
          ProtocolVersionIPv4
        = GetConnectionsFromReader (tableReader [headerLineIPv4, listeningLineIPv4])
            ProtocolVersionIPv4
      ∧ GetConnectionsFromReader (tableReader [headerLineIPv4, listeningLineIPv4])
          ProtocolVersionIPv4
        = .ok [NewListeningConnection ProtocolVersionIPv4 50 [127, 0, 0, 1] 6789 1000 789829] :=
  ⟨by decide,
    GetConnectionsFromReader_skips_empty_lines
      (tableReader [headerLineIPv4, [], listeningLineIPv4, [], []])
      (tableReader [headerLineIPv4, listeningLineIPv4]) ProtocolVersionIPv4 headerLineIPv4
      [[], listeningLineIPv4, []] [listeningLineIPv4] none (by decide) (by decide) (by decide),
    by decide⟩

/-! ## The protocol catalog -/

/-- C17: for every protocol version other than 4 and 6, `path` and `parser`
return an error and `GetConnectionsFromReader` returns an error whatever the
reader holds; for 4 and 6 they succeed with "/proc/net/tcp" and the IPv4 parser,
and "/proc/net/tcp6" and the IPv6 parser. -/
theorem ProtocolVersion_resolution (pv : ProtocolVersion) (reader : Reader)
    (h4 : pv ≠ ProtocolVersionIPv4) (h6 : pv ≠ ProtocolVersionIPv6) :
    ProtocolVersion.path pv = .error .illegalProtocolVersion
      ∧ ProtocolVersion.parser pv = .error .illegalProtocolVersion
      ∧ GetConnectionsFromReader reader pv = .error (.gettingParser .illegalProtocolVersion)
      ∧ ProtocolVersion.path ProtocolVersionIPv4 = .ok (str "/proc/net/tcp")
      ∧ ProtocolVersion.parser ProtocolVersionIPv4 = .ok .ipv4Parser
      ∧ ProtocolVersion.path ProtocolVersionIPv6 = .ok (str "/proc/net/tcp6")
      ∧ ProtocolVersion.parser ProtocolVersionIPv6 = .ok .ipv6Parser := by
  refine ⟨?_, ?_, ?_, by decide, by decide, by decide, by decide⟩
  · simp [ProtocolVersion.path, h4, h6]
  · simp [ProtocolVersion.parser, h4, h6]
  · simp [GetConnectionsFromReader, ProtocolVersion.parser, h4, h6, Outcome.andThen]

/-- The test of C17: protocol version 999 fails on the well-formed listening
table. -/
theorem ProtocolVersion_resolution_witness :
    GetConnectionsFromReader (tableReader [headerLineIPv4, listeningLineIPv4]) 999
      = .error (.gettingParser .illegalProtocolVersion) :=
  (ProtocolVersion_resolution 999 (tableReader [headerLineIPv4, listeningLineIPv4])
    (by decide) (by decide)).2.2.1

/-! ## Lemmas: what a successful decode says about its input -/

set_option maxRecDepth 100000 in
theorem digitVal_table : ∀ n : Fin 256,
    (digitVal (UInt8.ofNat n.val) = none →
      isHexDigit (UInt8.ofNat n.val) = false ∧ isDecDigit (UInt8.ofNat n.val) = false)
    ∧ (digitVal (UInt8.ofNat n.val) ≠ none →
      (UInt8.ofNat n.val).toNat < 0x80
      ∧ ((digitVal (UInt8.ofNat n.val)).getD 0 < 16 →
          isHexDigit (UInt8.ofNat n.val) = true
            ∧ (digitVal (UInt8.ofNat n.val)).getD 0 = hexValue (UInt8.ofNat n.val))
      ∧ ((digitVal (UInt8.ofNat n.val)).getD 0 < 10 →
          isDecDigit (UInt8.ofNat n.val) = true
            ∧ (digitVal (UInt8.ofNat n.val)).getD 0 = decValue (UInt8.ofNat n.val))
      ∧ (isHexDigit (UInt8.ofNat n.val) = true → (digitVal (UInt8.ofNat n.val)).getD 0 < 16)
      ∧ (isDecDigit (UInt8.ofNat n.val) = true →
          (digitVal (UInt8.ofNat n.val)).getD 0 < 10)) := by
  decide

theorem digitVal_facts (c : UInt8) (d : Nat) (h : digitVal c = some d) :
    c.toNat < 0x80
      ∧ (d < 16 → isHexDigit c = true ∧ d = hexValue c)
      ∧ (d < 10 → isDecDigit c = true ∧ d = decValue c)
      ∧ (isHexDigit c = true → d < 16)
      ∧ (isDecDigit c = true → d < 10) := by
  have := (digitVal_table ⟨c.toNat, c.toNat_lt_size⟩).2
  simp only [ofNat_toNat, h, ne_eq, not_false_eq_true, Option.getD_some, forall_const,
    reduceCtorEq] at this
  exact this

theorem digitVal_none (c : UInt8) (h : digitVal c = none) :
    isHexDigit c = false ∧ isDecDigit c = false := by
  have := (digitVal_table ⟨c.toNat, c.toNat_lt_size⟩).1
  simp only [ofNat_toNat] at this
  exact this h

theorem isHexDigit_iff (c : UInt8) :
    isHexDigit c = true ↔ ∃ d, digitVal c = some d ∧ d < 16 := by
  constructor
  · intro h
    cases hd : digitVal c with
    | none => rw [(digitVal_none c hd).1] at h; exact absurd h (by simp)
    | some d => exact ⟨d, rfl, (digitVal_facts c d hd).2.2.2.1 h⟩
  · rintro ⟨d, hd, hlt⟩
    exact ((digitVal_facts c d hd).2.1 hlt).1

theorem isDecDigit_iff (c : UInt8) :
    isDecDigit c = true ↔ ∃ d, digitVal c = some d ∧ d < 10 := by
  constructor
  · intro h
    cases hd : digitVal c with
    | none => rw [(digitVal_none c hd).2] at h; exact absurd h (by simp)
    | some d => exact ⟨d, rfl, (digitVal_facts c d hd).2.2.2.2 h⟩
  · rintro ⟨d, hd, hlt⟩
    exact ((digitVal_facts c d hd).2.2.1 hlt).1

theorem parseUintLoop_ok_digits (base cutoff maxVal : Nat) : ∀ (s : GoString) (n v : Nat),
    parseUintLoop base cutoff maxVal s n = .ok v →
    ∀ c ∈ s, ∃ d, digitVal c = some d ∧ d < base := by
  intro s
  induction s with
  | nil => intro n v _ c hc; exact absurd hc (List.not_mem_nil _)
  | cons a t ih =>
    intro n v h c hc
    simp only [parseUintLoop] at h
    split at h
    · exact absurd h (by simp)
    · next d hd =>
      split_ifs at h with h1 h2 h3
      rcases List.mem_cons.mp hc with rfl | hmem
      · exact ⟨d, hd, by omega⟩
      · exact ih _ v h c hmem

theorem encodeRune_head (r : Nat) (h : 0x7F < r) : ∃ b ∈ encodeRune r, 0x80 ≤ b.toNat := by
  unfold encodeRune
  split_ifs with h1 h2 h3 h4
  · omega
  · refine ⟨_, List.mem_cons_self _ _, ?_⟩
    rw [UInt8.toNat_ofNat_of_lt (by simp only [UInt8.size]; omega)]; omega
  · exact ⟨0xEF, List.mem_cons_self _ _, by decide⟩
  · refine ⟨_, List.mem_cons_self _ _, ?_⟩
    rw [UInt8.toNat_ofNat_of_lt (by simp only [UInt8.size]; omega)]; omega
  · refine ⟨_, List.mem_cons_self _ _, ?_⟩
    rw [UInt8.toNat_ofNat_of_lt (by simp only [UInt8.size]; omega)]; omega

theorem encodeRune_ascii (r : Nat) (h : r ≤ 0x7F) : encodeRune r = [UInt8.ofNat r] := by
  simp [encodeRune, h]

theorem ParseUint_rune_digit (r : Nat) (s : GoString) (base cutoff maxVal n v : Nat)
    (hmem : ∀ c ∈ encodeRune r, c ∈ s)
    (h : parseUintLoop base cutoff maxVal s n = .ok v) :
    r < 0x80 ∧ ∃ d, digitVal (UInt8.ofNat r) = some d ∧ d < base := by
  have hdig := parseUintLoop_ok_digits base cutoff maxVal s n v h
  have hr : r < 0x80 := by
    by_contra hge
    obtain ⟨b, hb, hhi⟩ := encodeRune_head r (by omega)
    obtain ⟨d, hd, _⟩ := hdig b (hmem b hb)
    have := (digitVal_facts b d hd).1
    omega
  refine ⟨hr, hdig _ (hmem _ ?_)⟩
  rw [encodeRune_ascii r (by omega)]
  exact List.mem_singleton_self _

theorem ParseUint_pair_inv (r0 r1 v : Nat)
    (h : ParseUint (runesToString [r0, r1]) 16 8 = .ok v) :
    (r0 < 0x80 ∧ isHexDigit (UInt8.ofNat r0) = true)
      ∧ (r1 < 0x80 ∧ isHexDigit (UInt8.ofNat r1) = true) := by
  unfold ParseUint at h
  split_ifs at h
  have e : runesToString [r0, r1] = encodeRune r0 ++ encodeRune r1 := by
    simp [runesToString]
  obtain ⟨h0, hd0⟩ := ParseUint_rune_digit r0 _ _ _ _ _ _
    (fun c hc => by rw [e]; exact List.mem_append_left _ hc) h
  obtain ⟨h1, hd1⟩ := ParseUint_rune_digit r1 _ _ _ _ _ _
    (fun c hc => by rw [e]; exact List.mem_append_right _ hc) h
  exact ⟨⟨h0, (isHexDigit_iff _).mpr hd0⟩, ⟨h1, (isHexDigit_iff _).mpr hd1⟩⟩

theorem reverseLoop_ok_inv : ∀ (src : List Nat) (j : Int) (dst out : List UInt8),
    reverseLoop src j dst = .ok out →
    src.length % 2 = 0 ∧ (∀ r ∈ src, r < 0x80 ∧ isHexDigit (UInt8.ofNat r) = true)
  | [], _, _, _, _ => ⟨rfl, fun r hr => absurd hr (List.not_mem_nil _)⟩
  | [_], _, _, _, h => by simp [reverseLoop] at h
  | r0 :: r1 :: rest, j, dst, out, h => by
    simp only [reverseLoop] at h
    split at h
    · exact absurd h (by simp)
    · exact absurd h (by simp)
    · next v hv =>
      split_ifs at h with hj
      obtain ⟨hlen, hall⟩ := reverseLoop_ok_inv rest _ _ out h
      obtain ⟨p0, p1⟩ := ParseUint_pair_inv r0 r1 v hv
      refine ⟨by simp only [List.length_cons]; omega, ?_⟩
      intro r hr
      rcases List.mem_cons.mp hr with rfl | hr
      · exact p0
      · rcases List.mem_cons.mp hr with rfl | hr
        · exact p1
        · exact hall r hr

theorem acceptRange_facts (s0 : Nat) :
    0x80 ≤ (acceptRange s0).1 ∧ (acceptRange s0).2 ≤ 0xBF
      ∧ (s0 = 0xE0 → (acceptRange s0).1 = 0xA0) ∧ (s0 = 0xF0 → (acceptRange s0).1 = 0x90) := by
  unfold acceptRange
  split_ifs <;> simp <;> omega

theorem DecodeRuneInString_ascii (c : UInt8) (t : GoString)
    (h : (DecodeRuneInString (c :: t)).1 < 0x80) : c.toNat < 0x80 := by
  by_contra hc
  obtain ⟨f1, f2, f3, f4⟩ := acceptRange_facts c.toNat
  unfold DecodeRuneInString at h
  simp only [hc, if_false] at h
  generalize (acceptRange c.toNat).1 = lo at h f1 f3 f4
  generalize (acceptRange c.toNat).2 = hi at h f2
  generalize (t.getD 0 0).toNat = s1 at h
  generalize (t.getD 1 0).toNat = s2 at h
  generalize (t.getD 2 0).toNat = s3 at h
  generalize c.toNat = s0 at h hc f3 f4
  by_cases h1 : s0 < 0xC2 ∨ 0xF4 < s0
  · simp only [h1, if_true, RuneError] at h; omega
  · simp only [h1, if_false] at h
    split_ifs at h with a1 a2 a3 a4 a5 a6 a7 a8 a9
    all_goals (simp only [RuneError] at h; omega)

theorem rangeStringAux_ascii_inv : ∀ (s : GoString),
    (∀ x ∈ rangeStringAux s 0, x.1 < 0x80) → ∀ c ∈ s, c.toNat < 0x80 := by
  intro s
  induction s with
  | nil => intro _ c hc; exact absurd hc (List.not_mem_nil _)
  | cons a t ih =>
    intro h c hc
    have ha : a.toNat < 0x80 := by
      apply DecodeRuneInString_ascii a t
      exact h ((DecodeRuneInString (a :: t)).1,
        (a :: t).take (DecodeRuneInString (a :: t)).2) (by simp [rangeStringAux])
    have hd : DecodeRuneInString (a :: t) = (a.toNat, 1) := by
      simp [DecodeRuneInString, ha]
    rcases List.mem_cons.mp hc with rfl | hmem
    · exact ha
    · refine ih (fun x hx => h x ?_) c hmem
      simp only [rangeStringAux, hd, List.mem_cons]
      exact Or.inr hx

theorem reverseBytesInHexWord_ok_inv (s : GoString) (out : List UInt8)
    (h : reverseBytesInHexWord s = .ok out) :
    s.length % 2 = 0 ∧ (∀ c ∈ s, isHexDigit c = true) ∧ out = (hexPairs s).reverse := by
  have heven : s.length % 2 = 0 := by
    by_contra hodd
    simp [reverseBytesInHexWord, hodd] at h
  have h' := h
  unfold reverseBytesInHexWord at h'
  rw [if_neg (by omega)] at h'
  obtain ⟨_, hall⟩ := reverseLoop_ok_inv _ _ _ out h'
  have hascii : ∀ c ∈ s, c.toNat < 0x80 := by
    apply rangeStringAux_ascii_inv
    intro x hx
    exact (hall x.1 (by
      simp only [toRunes, rangeString, List.mem_map]
      exact ⟨x, hx, rfl⟩)).1
  have hhex : ∀ c ∈ s, isHexDigit c = true := by
    intro c hc
    have := (hall c.toNat (by
      rw [toRunes_ascii s hascii]
      exact List.mem_map_of_mem _ hc)).2
    rwa [ofNat_toNat] at this
  refine ⟨heven, hhex, ?_⟩
  rw [reverseBytesInHexWord_of_hex s hhex heven] at h
  simp only [Outcome.ok.injEq] at h
  exact h.symm

theorem ipv4Parser_parseAddress_ok_inv (s : GoString) (a : List UInt8)
    (h : ipv4Parser.parseAddress s = .ok a) :
    s.length = 8 ∧ (∀ c ∈ s, isHexDigit c = true) ∧ a = (hexPairs s).reverse
      ∧ a.length = 4 := by
  unfold ipv4Parser.parseAddress at h
  split_ifs at h with hlen
  simp only [nibblesInIPv4Address, ne_eq, not_not] at hlen
  rw [andThen_eq_ok] at h
  obtain ⟨v, hv, hva⟩ := h
  simp only [Outcome.ok.injEq] at hva
  subst hva
  obtain ⟨_, hhex, hout⟩ := reverseBytesInHexWord_ok_inv s v hv
  refine ⟨hlen, hhex, hout, ?_⟩
  rw [hout, List.length_reverse]
  exact hexPairs_length 4 s (by omega)

theorem ipv6Parser_parseAddress_ok_inv (s : GoString) (a : List UInt8)
    (h : ipv6Parser.parseAddress s = .ok a) :
    s.length = 32 ∧ (∀ c ∈ s, isHexDigit c = true) ∧ a.length = 16 := by
  have hlen : s.length = 32 := by
    by_contra hne
    simp [ipv6Parser.parseAddress, nibblesInIPv6Address, bytesInIPv6Address, hne] at h
  rw [ipv6Parser_parseAddress_words s hlen] at h
  simp only [andThen_eq_ok, Outcome.ok.injEq] at h
  obtain ⟨b0, h0, b1, h1, b2, h2, b3, h3, ha⟩ := h
  obtain ⟨_, x0, o0⟩ := reverseBytesInHexWord_ok_inv _ _ h0
  obtain ⟨_, x1, o1⟩ := reverseBytesInHexWord_ok_inv _ _ h1
  obtain ⟨_, x2, o2⟩ := reverseBytesInHexWord_ok_inv _ _ h2
  obtain ⟨_, x3, o3⟩ := reverseBytesInHexWord_ok_inv _ _ h3
  refine ⟨hlen, ?_, ?_⟩
  · intro c hc
    rw [words_append s hlen] at hc
    simp only [List.mem_append] at hc
    rcases hc with hc | hc | hc | hc
    · exact x0 c hc
    · exact x1 c hc
    · exact x2 c hc
    · exact x3 c hc
  · have l0 := hexPairs_length 4 _ (word_length s hlen 0 (by omega))
    have l1 := hexPairs_length 4 _ (word_length s hlen 1 (by omega))
    have l2 := hexPairs_length 4 _ (word_length s hlen 2 (by omega))
    have l3 := hexPairs_length 4 _ (word_length s hlen 3 (by omega))
    rw [← ha, o0, o1, o2, o3]
    simp only [List.length_append, List.length_reverse, l0, l1, l2, l3]

theorem ipParser_parseAddress_ok_inv (p : ipParser) (s : GoString) (a : List UInt8)
    (h : p.parseAddress s = .ok a) :
    a.length = addrLen p ∧ ∀ c ∈ s, isHexDigit c = true := by
  cases p with
  | ipv4Parser =>
    obtain ⟨_, hhex, _, hl⟩ := ipv4Parser_parseAddress_ok_inv s a h
    exact ⟨hl, hhex⟩
  | ipv6Parser =>
    obtain ⟨_, hhex, hl⟩ := ipv6Parser_parseAddress_ok_inv s a h
    exact ⟨hl, hhex⟩

theorem parseAddress_ok_length (s : GoString) (p : ipParser) (addr : List UInt8) (port : Nat)
    (h : parseAddress s p = .ok (addr, port)) : addr.length = addrLen p := by
  obtain ⟨ipField, _, _, _, ha, _⟩ := parseAddress_ok_inv s p addr port h
  exact (ipParser_parseAddress_ok_inv p ipField addr ha).1

theorem toConn_ok_lengths (line : GoString) (p : ipParser) (pv : ProtocolVersion)
    (c : Connection) (h : toConn line p pv = .ok c) :
    c.ProtocolVersion = pv ∧ c.LocalAddr.length = addrLen p
      ∧ (c.State ≠ StateListen → c.RemoteAddr.length = addrLen p)
      ∧ (c.State = StateListen → c.RemoteAddr = []) := by
  obtain ⟨localField, remField, queuesField, stateField, iNodeField, uidField, loc, rem,
    queues, state, iNode, uid, _, h2, _, h4, _, _, _, _, _, _, _, _, hc⟩ :=
    toConn_ok_inv line p pv c h
  have hl := parseAddress_ok_length localField p loc.1 loc.2 h2
  have hr := parseAddress_ok_length remField p rem.1 rem.2 h4
  by_cases hs : state = StateListen
  · rw [if_pos hs] at hc
    subst hc
    exact ⟨rfl, hl, fun hne => absurd rfl hne, fun _ => rfl⟩
  · rw [if_neg hs] at hc
    subst hc
    exact ⟨rfl, hl, fun _ => hr, fun he => absurd he hs⟩

theorem connsLoop_ok_mem (p : ipParser) (pv : ProtocolVersion) (e : Option Err) :
    ∀ (lines : List GoString) (first : Bool) (conns out : List Connection),
      connsLoop p pv lines e first conns = .ok out →
      ∀ c ∈ out, c ∈ conns ∨ ∃ l ∈ lines, toConn l p pv = .ok c := by
  intro lines
  induction lines with
  | nil =>
    intro first conns out h c hc
    simp only [connsLoop] at h
    split at h
    · exact absurd h (by simp)
    · simp only [Outcome.ok.injEq] at h
      exact Or.inl (h ▸ hc)
  | cons l rest ih =>
    intro first conns out h c hc
    simp only [connsLoop] at h
    split_ifs at h with h1 h2
    · rcases ih false conns out h c hc with hm | ⟨l', hl', hok⟩
      · exact Or.inl hm
      · exact Or.inr ⟨l', List.mem_cons_of_mem _ hl', hok⟩
    · rcases ih false conns out h c hc with hm | ⟨l', hl', hok⟩
      · exact Or.inl hm
      · exact Or.inr ⟨l', List.mem_cons_of_mem _ hl', hok⟩
    · rw [andThen_eq_ok] at h
      obtain ⟨conn, hconn, hrest⟩ := h
      rcases ih false _ out hrest c hc with hm | ⟨l', hl', hok⟩
      · rcases List.mem_append.mp hm with hm | hm
        · exact Or.inl hm
        · rw [List.mem_singleton] at hm
          exact Or.inr ⟨l, List.mem_cons_self _ _, hm ▸ hconn⟩
      · exact Or.inr ⟨l', List.mem_cons_of_mem _ hl', hok⟩

theorem parser_ok_inv (pv : ProtocolVersion) (p : ipParser)
    (h : ProtocolVersion.parser pv = .ok p) :
    (pv = ProtocolVersionIPv4 ∧ p = .ipv4Parser) ∨ (pv = ProtocolVersionIPv6 ∧ p = .ipv6Parser) := by
  unfold ProtocolVersion.parser at h
  split_ifs at h with h4 h6
  · simp only [Outcome.ok.injEq] at h
    exact Or.inl ⟨h4, h.symm⟩
  · simp only [Outcome.ok.injEq] at h
    exact Or.inr ⟨h6, h.symm⟩

theorem GetConnectionsFromReader_ok_mem (reader : Reader) (pv : ProtocolVersion)
    (conns : List Connection) (h : GetConnectionsFromReader reader pv = .ok conns) :
    ∃ p, ProtocolVersion.parser pv = .ok p
      ∧ ∀ c ∈ conns, ∃ l ∈ (scanLines reader).1, toConn l p pv = .ok c := by
  unfold GetConnectionsFromReader at h
  rw [andThen_eq_ok] at h
  obtain ⟨p, hp, hloop⟩ := h
  refine ⟨p, hp, fun c hc => ?_⟩
  rcases connsLoop_ok_mem p pv _ _ true [] conns hloop c hc with hm | hm
  · exact absurd hm (List.not_mem_nil _)
  · exact hm

/-! ## The record invariants -/

set_option maxRecDepth 100000 in
/-- C13 as stated fails: the listening test table decodes to one IPv4 record whose
RemoteAddr has no bytes at all, not four. -/
theorem listening_record_remote_addr_length :
    GetConnectionsFromReader (tableReader [headerLineIPv4, listeningLineIPv4])
        ProtocolVersionIPv4
      = .ok [NewListeningConnection ProtocolVersionIPv4 50 [127, 0, 0, 1] 6789 1000 789829]
    ∧ (NewListeningConnection ProtocolVersionIPv4 50 [127, 0, 0, 1] 6789 1000
        789829).ProtocolVersion = ProtocolVersionIPv4
    ∧ (NewListeningConnection ProtocolVersionIPv4 50 [127, 0, 0, 1] 6789 1000
        789829).RemoteAddr.length = 0 := by
  decide

/-- C13 amended: in every record of a successful decode the protocol version is
the requested one, LocalAddr is 4 bytes long in an IPv4 record and 16 bytes long
in an IPv6 record, RemoteAddr has that same length in a non-listening record,
and RemoteAddr is the nil address, of length zero, in a listening record. -/
theorem record_address_lengths (reader : Reader) (pv : ProtocolVersion)
    (conns : List Connection) (h : GetConnectionsFromReader reader pv = .ok conns) :
    ∀ c ∈ conns, c.ProtocolVersion = pv
      ∧ ((pv = ProtocolVersionIPv4 ∧ c.LocalAddr.length = 4)
          ∨ (pv = ProtocolVersionIPv6 ∧ c.LocalAddr.length = 16))
      ∧ (c.State ≠ StateListen → c.RemoteAddr.length = c.LocalAddr.length)
      ∧ (c.State = StateListen → c.RemoteAddr = []) := by
  obtain ⟨p, hp, hmem⟩ := GetConnectionsFromReader_ok_mem reader pv conns h
  intro c hc
  obtain ⟨l, _, hl⟩ := hmem c hc
  obtain ⟨e1, e2, e3, e4⟩ := toConn_ok_lengths l p pv c hl
  refine ⟨e1, ?_, fun hs => (e3 hs).trans e2.symm, e4⟩
  rcases parser_ok_inv pv p hp with ⟨h4, rfl⟩ | ⟨h6, rfl⟩
  · exact Or.inl ⟨h4, e2⟩
  · exact Or.inr ⟨h6, e2⟩

set_option maxRecDepth 100000 in
/-- An instance of C13 amended: the established test table decodes to a record
with two 4-byte addresses. -/
theorem record_address_lengths_witness :
    GetConnectionsFromReader (tableReader [headerLineIPv4, establishedLineIPv4])
        ProtocolVersionIPv4
      = .ok [NewConnection StateEstablished ProtocolVersionIPv4 0 0 [192, 168, 1, 3] 54176
          [88, 221, 16, 125] 443 1000 380687]
    ∧ ∀ c ∈ [NewConnection StateEstablished ProtocolVersionIPv4 0 0 [192, 168, 1, 3] 54176
          [88, 221, 16, 125] 443 1000 380687],
        c.ProtocolVersion = ProtocolVersionIPv4
        ∧ ((ProtocolVersionIPv4 = ProtocolVersionIPv4 ∧ c.LocalAddr.length = 4)
            ∨ (ProtocolVersionIPv4 = ProtocolVersionIPv6 ∧ c.LocalAddr.length = 16))
        ∧ (c.State ≠ StateListen → c.RemoteAddr.length = c.LocalAddr.length)
        ∧ (c.State = StateListen → c.RemoteAddr = []) :=
  ⟨by decide,
    record_address_lengths (tableReader [headerLineIPv4, establishedLineIPv4])
      ProtocolVersionIPv4 _ (by decide)⟩

set_option maxRecDepth 100000 in
/-- C14 as stated fails: the listening test lines decode to records whose
RemoteAddr is the nil address, without bytes, not 0.0.0.0 and not the sixteen
zero bytes of `::`. -/
theorem listening_record_remote_addr_nil :
    (∃ c, toConn listeningLineIPv4 .ipv4Parser ProtocolVersionIPv4 = .ok c
      ∧ c.State = StateListen ∧ c.RemoteAddr = [] ∧ c.RemoteAddr ≠ [0, 0, 0, 0])
    ∧ (∃ c, toConn listeningLineIPv6 .ipv6Parser ProtocolVersionIPv6 = .ok c
      ∧ c.State = StateListen ∧ c.RemoteAddr = []
      ∧ c.RemoteAddr ≠ [0, 0, 0, 0, 0, 0, 0, 0, 0, 0, 0, 0, 0, 0, 0, 0]) :=
  ⟨⟨NewListeningConnection ProtocolVersionIPv4 50 [127, 0, 0, 1] 6789 1000 789829,
      by decide, by decide, by decide, by decide⟩,
    ⟨NewListeningConnection ProtocolVersionIPv6 0
      [0, 0, 0, 0, 0, 0, 0, 0, 0, 0, 0, 0, 0, 0, 0, 1] 631 0 31267,
      by decide, by decide, by decide, by decide⟩⟩

/-- C14 amended: for every listening-state line that decodes successfully, in
either family and whatever address the remote token held, the record's
RemoteAddr is the zero value of `net.IP`, the nil address without bytes. -/
theorem toConn_listening_remote_addr (line : GoString) (p : ipParser)
    (pv : ProtocolVersion) (c : Connection) (hok : toConn line p pv = .ok c)
    (hst : (Fields line).get? indexState = some kernelTCPListen) :
    c.RemoteAddr = [] ∧ c.RemoteAddr.length = 0 := by
  obtain ⟨_, _, _, stateField, _, _, loc, rem, queues, state, iNode, uid, _, _, _, _, _, _,
    h7, h8, _, _, _, _, hc⟩ := toConn_ok_inv line p pv c hok
  rw [hst, Option.some.injEq] at h7
  subst h7
  have hstate : state = StateListen := by
    have : convertState kernelTCPListen = (StateListen, none) := by decide
    rw [this, Prod.mk.injEq] at h8
    exact h8.1.symm
  rw [if_pos hstate] at hc
  subst hc
  exact ⟨rfl, rfl⟩

set_option maxRecDepth 100000 in
/-- An instance of C14 amended: the IPv6 listening test line. -/
theorem toConn_listening_remote_addr_witness :
    toConn listeningLineIPv6 .ipv6Parser ProtocolVersionIPv6
      = .ok (NewListeningConnection ProtocolVersionIPv6 0
          [0, 0, 0, 0, 0, 0, 0, 0, 0, 0, 0, 0, 0, 0, 0, 1] 631 0 31267)
    ∧ (Fields listeningLineIPv6).get? indexState = some kernelTCPListen
    ∧ (NewListeningConnection ProtocolVersionIPv6 0
          [0, 0, 0, 0, 0, 0, 0, 0, 0, 0, 0, 0, 0, 0, 0, 1] 631 0 31267).RemoteAddr = [] :=
  ⟨by decide, by decide,
    (toConn_listening_remote_addr listeningLineIPv6 .ipv6Parser ProtocolVersionIPv6
      (NewListeningConnection ProtocolVersionIPv6 0
        [0, 0, 0, 0, 0, 0, 0, 0, 0, 0, 0, 0, 0, 0, 0, 1] 631 0 31267)
      (by decide) (by decide)).1⟩

/-! ## Lemmas: `ParseUint` on digit strings -/

theorem digitsValue_cons (base : Nat) (c : UInt8) (cs : GoString) (n : Nat) :
    digitsValue base (c :: cs) n = digitsValue base cs (n * base + (digitVal c).getD 0) := rfl

theorem digitsValue_ge (base : Nat) (hb : 1 ≤ base) : ∀ (s : GoString) (n : Nat),
    n ≤ digitsValue base s n := by
  intro s
  induction s with
  | nil => intro n; exact Nat.le_refl _
  | cons c cs ih =>
    intro n
    rw [digitsValue_cons]
    have h1 : n ≤ n * base := Nat.le_mul_of_pos_right n hb
    exact Nat.le_trans (by omega) (ih _)

theorem parseUintLoop_ne_panic (base cutoff maxVal : Nat) : ∀ (s : GoString) (n : Nat),
    parseUintLoop base cutoff maxVal s n ≠ .panic := by
  intro s
  induction s with
  | nil => intro n; simp [parseUintLoop]
  | cons c cs ih =>
    intro n
    simp only [parseUintLoop]
    split
    · simp
    · split_ifs
      · simp
      · simp
      · simp
      · exact ih _

theorem parseUintLoop_ok_iff (base cutoff maxVal : Nat) (hb1 : 1 ≤ base) (hb : base ≤ 36)
    (hmax : maxVal < 2 ^ 32) (hcut : maxVal < cutoff) : ∀ (s : GoString) (n v : Nat),
    n ≤ maxVal →
    (parseUintLoop base cutoff maxVal s n = .ok v ↔
      (∀ c ∈ s, ∃ d, digitVal c = some d ∧ d < base) ∧ digitsValue base s n = v
        ∧ v ≤ maxVal) := by
  intro s
  induction s with
  | nil =>
    intro n v hn
    simp only [parseUintLoop, Outcome.ok.injEq, List.not_mem_nil, false_implies, implies_true,
      true_and, digitsValue, List.foldl_nil]
    constructor
    · intro h; exact ⟨h, h ▸ hn⟩
    · intro h; exact h.1
  | cons c cs ih =>
    intro n v hn
    rw [digitsValue_cons]
    simp only [parseUintLoop]
    cases hd : digitVal c with
    | none =>
      simp only [reduceCtorEq, false_iff, not_and]
      intro hall
      obtain ⟨d, hd', _⟩ := hall c (List.mem_cons_self _ _)
      rw [hd] at hd'
      exact absurd hd' (by simp)
    | some d =>
      simp only [Option.getD_some]
      by_cases hdb : d ≥ base
      · simp only [hdb, if_true, reduceCtorEq, false_iff, not_and]
        intro hall
        obtain ⟨d', hd', hlt⟩ := hall c (List.mem_cons_self _ _)
        rw [hd, Option.some.injEq] at hd'
        omega
      · have hnc : ¬ n ≥ cutoff := by omega
        have hmul : n * base ≤ 2 ^ 32 * 36 := Nat.mul_le_mul (by omega) hb
        have e1 : n * base % 2 ^ 64 = n * base := Nat.mod_eq_of_lt (by omega)
        have e2 : (n * base + d) % 2 ^ 64 = n * base + d := Nat.mod_eq_of_lt (by omega)
        simp only [hdb, hnc, if_false, e1, e2]
        by_cases hov : n * base + d > maxVal
        · have hor : n * base + d < n * base ∨ n * base + d > maxVal := Or.inr hov
          simp only [hor, if_true, reduceCtorEq, false_iff, not_and]
          intro _ hv
          have := digitsValue_ge base hb1 cs (n * base + d)
          omega
        · have hor : ¬ (n * base + d < n * base ∨ n * base + d > maxVal) := by omega
          simp only [hor, if_false]
          rw [ih (n * base + d) v (by omega)]
          constructor
          · rintro ⟨hall, hv, hle⟩
            refine ⟨?_, hv, hle⟩
            intro c' hc'
            rcases List.mem_cons.mp hc' with rfl | hm
            · exact ⟨d, hd, by omega⟩
            · exact hall c' hm
          · rintro ⟨hall, hv, hle⟩
            exact ⟨fun c' hc' => hall c' (List.mem_cons_of_mem _ hc'), hv, hle⟩

theorem ParseUint_ne_panic (s : GoString) (base bitSize : Nat) :
    ParseUint s base bitSize ≠ .panic := by
  unfold ParseUint
  split_ifs
  · simp
  · exact parseUintLoop_ne_panic _ _ _ _ _

theorem ParseUint_ok_iff (s : GoString) (base bitSize v : Nat) (hb1 : 1 ≤ base)
    (hb : base ≤ 36) (hbits : bitSize ≤ 32) :
    ParseUint s base bitSize = .ok v ↔
      s ≠ [] ∧ (∀ c ∈ s, ∃ d, digitVal c = some d ∧ d < base) ∧ digitsValue base s 0 = v
        ∧ v < 2 ^ bitSize := by
  have hpow : 2 ^ bitSize ≤ 2 ^ 32 := Nat.pow_le_pow_right (by decide) hbits
  have hpos : 0 < 2 ^ bitSize := Nat.pow_pos (by decide)
  have hdiv : (2 ^ 64 - 1) / 36 ≤ (2 ^ 64 - 1) / base := Nat.div_le_div_left hb (by omega)
  have hcut : 2 ^ bitSize - 1 < (2 ^ 64 - 1) / base + 1 := by
    have : (2 : Nat) ^ 32 ≤ (2 ^ 64 - 1) / 36 := by decide
    omega
  unfold ParseUint
  by_cases hs : s = []
  · simp [hs]
  · simp only [hs, if_false, ne_eq, not_false_eq_true, true_and]
    rw [parseUintLoop_ok_iff base _ (2 ^ bitSize - 1) hb1 hb (by omega) hcut s 0 v
      (Nat.zero_le _)]
    constructor
    · rintro ⟨h1, h2, h3⟩; exact ⟨h1, h2, by omega⟩
    · rintro ⟨h1, h2, h3⟩; exact ⟨h1, h2, by omega⟩

theorem hexNumber_eq_digitsValue : ∀ (s : GoString) (n : Nat),
    (∀ c ∈ s, isHexDigit c = true) →
    s.foldl (fun acc c => 16 * acc + hexValue c) n = digitsValue 16 s n := by
  intro s
  induction s with
  | nil => intro n _; rfl
  | cons c cs ih =>
    intro n h
    obtain ⟨d, hd, hlt⟩ := (isHexDigit_iff c).mp (h c (List.mem_cons_self _ _))
    have hv := ((digitVal_facts c d hd).2.1 hlt).2
    rw [digitsValue_cons, List.foldl_cons, hd, Option.getD_some, ← hv,
      ih _ (fun c' hc' => h c' (List.mem_cons_of_mem _ hc')), Nat.mul_comm]

theorem decNumber_eq_digitsValue : ∀ (s : GoString) (n : Nat),
    (∀ c ∈ s, isDecDigit c = true) →
    s.foldl (fun acc c => 10 * acc + decValue c) n = digitsValue 10 s n := by
  intro s
  induction s with
  | nil => intro n _; rfl
  | cons c cs ih =>
    intro n h
    obtain ⟨d, hd, hlt⟩ := (isDecDigit_iff c).mp (h c (List.mem_cons_self _ _))
    have hv := ((digitVal_facts c d hd).2.2.1 hlt).2
    rw [digitsValue_cons, List.foldl_cons, hd, Option.getD_some, ← hv,
      ih _ (fun c' hc' => h c' (List.mem_cons_of_mem _ hc')), Nat.mul_comm]

theorem ParseUint_hex_iff (s : GoString) (bitSize v : Nat) (hbits : bitSize ≤ 32) :
    ParseUint s 16 bitSize = .ok v ↔ isHexUint bitSize s ∧ v = hexNumber s := by
  rw [ParseUint_ok_iff s 16 bitSize v (by decide) (by decide) hbits]
  unfold isHexUint hexNumber
  constructor
  · rintro ⟨h1, h2, h3, h4⟩
    have hhex : ∀ c ∈ s, isHexDigit c = true := fun c hc => (isHexDigit_iff c).mpr (h2 c hc)
    rw [hexNumber_eq_digitsValue s 0 hhex, h3]
    exact ⟨⟨h1, hhex, h4⟩, rfl⟩
  · rintro ⟨⟨h1, h2, h3⟩, h4⟩
    rw [hexNumber_eq_digitsValue s 0 h2] at h3 h4
    exact ⟨h1, fun c hc => (isHexDigit_iff c).mp (h2 c hc), h4.symm, h4 ▸ h3⟩

theorem ParseUint_dec_iff (s : GoString) (bitSize v : Nat) (hbits : bitSize ≤ 32) :
    ParseUint s 10 bitSize = .ok v ↔ isDecUint bitSize s ∧ v = decNumber s := by
  rw [ParseUint_ok_iff s 10 bitSize v (by decide) (by decide) hbits]
  unfold isDecUint decNumber
  constructor
  · rintro ⟨h1, h2, h3, h4⟩
    have hdec : ∀ c ∈ s, isDecDigit c = true := fun c hc => (isDecDigit_iff c).mpr (h2 c hc)
    rw [decNumber_eq_digitsValue s 0 hdec, h3]
    exact ⟨⟨h1, hdec, h4⟩, rfl⟩
  · rintro ⟨⟨h1, h2, h3⟩, h4⟩
    rw [decNumber_eq_digitsValue s 0 h2] at h3 h4
    exact ⟨h1, fun c hc => (isDecDigit_iff c).mp (h2 c hc), h4.symm, h4 ▸ h3⟩

theorem Outcome_error_of_not_ok {α : Type} (x : Outcome α) (hp : x ≠ .panic)
    (hok : ∀ v, x ≠ .ok v) : ∃ e, x = .error e := by
  cases x with
  | ok v => exact absurd rfl (hok v)
  | error e => exact ⟨e, rfl⟩
  | panic => exact absurd rfl hp

theorem ParseUint_hex_error (s : GoString) (bitSize : Nat) (hbits : bitSize ≤ 32)
    (h : ¬ isHexUint bitSize s) : ∃ e, ParseUint s 16 bitSize = .error e :=
  Outcome_error_of_not_ok _ (ParseUint_ne_panic _ _ _) fun v hv =>
    h ((ParseUint_hex_iff s bitSize v hbits).mp hv).1

theorem ParseUint_dec_error (s : GoString) (bitSize : Nat) (hbits : bitSize ≤ 32)
    (h : ¬ isDecUint bitSize s) : ∃ e, ParseUint s 10 bitSize = .error e :=
  Outcome_error_of_not_ok _ (ParseUint_ne_panic _ _ _) fun v hv =>
    h ((ParseUint_dec_iff s bitSize v hbits).mp hv).1

theorem Split_length (sep : UInt8) : ∀ (s : GoString),
    (Split s sep).length = s.count sep + 1 := by
  intro s
  induction s with
  | nil => rfl
  | cons c cs ih =>
    by_cases hc : c = sep
    · subst hc
      simp [Split, ih]
    · have hne : (c == sep) = false := by simpa using hc
      simp only [Split, hc, if_false, List.count_cons, hne, Bool.false_eq_true]
      cases hsp : Split cs sep with
      | nil => rw [hsp] at ih; simp at ih
      | cons h t => rw [hsp] at ih; simpa using ih

theorem Split_short_iff (sep : UInt8) (s : GoString) :
    (Split s sep).length < 2 ↔ sep ∉ s := by
  rw [Split_length, ← List.count_eq_zero]
  omega

theorem parseUID_error (s : GoString) (h : ¬ isDecUint 32 s) :
    ∃ e, parseUID s = .error (.badUID e) := by
  obtain ⟨e, he⟩ := ParseUint_dec_error s 32 (Nat.le_refl _) h
  exact ⟨e, by simp [parseUID, he, Outcome.andThen]⟩

theorem parseINode_error (s : GoString) (h : ¬ isDecUint 32 s) :
    ∃ e, parseINode s = .error (.badINode e) := by
  obtain ⟨e, he⟩ := ParseUint_dec_error s 32 (Nat.le_refl _) h
  exact ⟨e, by simp [parseINode, he, Outcome.andThen]⟩

/-! ## The subfields of a line -/

/-- C18: for every address token whose first part `A` (before the first colon) is
a valid address of the family and whose second part is `P`, `parseAddress`
returns as port the value of `P` read as hexadecimal when `P` is a non-empty
string of hex digits, in either case, with value at most 0xFFFF, and returns the
port error otherwise (empty `P`, a character that is not a hex digit, such as a
sign or an `x`, or a value above 0xFFFF). -/
theorem parseAddress_port (token A P : GoString) (rest : List GoString) (p : ipParser)
    (addr : List UInt8) (hsplit : Split token 0x3A = A :: P :: rest)
    (hA : p.parseAddress A = .ok addr) :
    (isHexUint 16 P → parseAddress token p = .ok (addr, hexNumber P))
      ∧ (¬ isHexUint 16 P → ∃ e, parseAddress token p = .error (.badPort e))
      ∧ (isHexUint 16 P ↔ P ≠ [] ∧ (∀ c ∈ P, isHexDigit c = true) ∧ hexNumber P ≤ 0xFFFF) := by
  have hunfold : parseAddress token p
      = (ParseUint P 16 16).andThen .badPort fun uint64Port =>
          .ok (addr, uint64Port % 2 ^ 16) := by
    simp [parseAddress, hsplit, minNoOfAddressSubfields, index, subIndexIP, subIndexPort, hA,
      Outcome.andThen]
  refine ⟨?_, ?_, ?_⟩
  · intro hP
    have hok := (ParseUint_hex_iff P 16 (hexNumber P) (by decide)).mpr ⟨hP, rfl⟩
    rw [hunfold, hok]
    simp only [Outcome.andThen, ParseUint_mod P 16 16 _ hok]
  · intro hP
    obtain ⟨e, he⟩ := ParseUint_hex_error P 16 (by decide) hP
    exact ⟨e, by rw [hunfold, he]; rfl⟩
  · unfold isHexUint
    constructor
    · rintro ⟨h1, h2, h3⟩; exact ⟨h1, h2, by omega⟩
    · rintro ⟨h1, h2, h3⟩; exact ⟨h1, h2, by omega⟩

set_option maxRecDepth 100000 in
/-- The tests of C18: the port "1A85" is 6789; "BADPORT", "10000", "0x50",
"+50" and the empty port fail. -/
theorem parseAddress_port_witness :
    parseAddress (str "0100007F:1A85") .ipv4Parser = .ok ([127, 0, 0, 1], hexNumber (str "1A85"))
      ∧ hexNumber (str "1A85") = 6789
      ∧ (∃ e, parseAddress (str "0100007F:BADPORT") .ipv4Parser = .error (.badPort e))
      ∧ (∃ e, parseAddress (str "0100007F:10000") .ipv4Parser = .error (.badPort e))
      ∧ (∃ e, parseAddress (str "0100007F:0x50") .ipv4Parser = .error (.badPort e))
      ∧ (∃ e, parseAddress (str "0100007F:+50") .ipv4Parser = .error (.badPort e))
      ∧ (∃ e, parseAddress (str "0100007F:") .ipv4Parser = .error (.badPort e)) :=
  ⟨(parseAddress_port (str "0100007F:1A85") (str "0100007F") (str "1A85") [] .ipv4Parser
      [127, 0, 0, 1] (by decide) (by decide)).1 (by decide),
    by decide,
    (parseAddress_port (str "0100007F:BADPORT") (str "0100007F") (str "BADPORT") [] .ipv4Parser
      [127, 0, 0, 1] (by decide) (by decide)).2.1 (by decide),
    (parseAddress_port (str "0100007F:10000") (str "0100007F") (str "10000") [] .ipv4Parser
      [127, 0, 0, 1] (by decide) (by decide)).2.1 (by decide),
    (parseAddress_port (str "0100007F:0x50") (str "0100007F") (str "0x50") [] .ipv4Parser
      [127, 0, 0, 1] (by decide) (by decide)).2.1 (by decide),
    (parseAddress_port (str "0100007F:+50") (str "0100007F") (str "+50") [] .ipv4Parser
      [127, 0, 0, 1] (by decide) (by decide)).2.1 (by decide),
    (parseAddress_port (str "0100007F:") (str "0100007F") (str "") [] .ipv4Parser
      [127, 0, 0, 1] (by decide) (by decide)).2.1 (by decide)⟩

set_option maxRecDepth 100000 in
/-- C19: `parseQueues` returns an error when splitting the token on ':' gives
fewer than two parts, which is when the token holds no colon, and when the first
(tx) or the second (rx) part is not a non-empty string of hex digits with value
below 2^32; otherwise it returns the values of the first and of the second part
as `tx` and `rx`. -/
theorem parseQueues_spec (token : GoString) :
    ((Split token 0x3A).length < 2 ↔ (0x3A : UInt8) ∉ token)
      ∧ ((Split token 0x3A).length < 2 → parseQueues token = .error .tooFewQueuesSubfields)
      ∧ (∀ T R rest, Split token 0x3A = T :: R :: rest →
          (isHexUint 32 T → isHexUint 32 R → parseQueues token = .ok (hexNumber T, hexNumber R))
          ∧ (¬ isHexUint 32 T → ∃ e, parseQueues token = .error (.badTXQueue e))
          ∧ (isHexUint 32 T → ¬ isHexUint 32 R →
              ∃ e, parseQueues token = .error (.badRXQueue e)))
      ∧ parseQueues (str "00000000:00000032") = .ok (0, 50)
      ∧ parseQueues (str "00000000") = .error .tooFewQueuesSubfields
      ∧ parseQueues (str "BADQUEUE:00000000") = .error (.badTXQueue .errSyntax)
      ∧ parseQueues (str "00000000:BADQUEUE") = .error (.badRXQueue .errSyntax)
      ∧ parseQueues (str "100000000:0") = .error (.badTXQueue .errRange) := by
  refine ⟨Split_short_iff _ _, ?_, ?_, by decide, by decide, by decide, by decide, by decide⟩
  · intro h
    simp [parseQueues, minNoOfQueuesSubfields, h]
  · intro T R rest hsplit
    have hunfold : parseQueues token
        = (ParseUint T 16 32).andThen .badTXQueue fun txUint64 =>
            (ParseUint R 16 32).andThen .badRXQueue fun rxUint64 =>
              .ok (txUint64 % 2 ^ 32, rxUint64 % 2 ^ 32) := by
      simp [parseQueues, hsplit, minNoOfQueuesSubfields, index, subIndexTXQueue,
        subIndexRXQueue, Outcome.andThen]
    refine ⟨?_, ?_, ?_⟩
    · intro hT hR
      have hokT := (ParseUint_hex_iff T 32 (hexNumber T) (by decide)).mpr ⟨hT, rfl⟩
      have hokR := (ParseUint_hex_iff R 32 (hexNumber R) (by decide)).mpr ⟨hR, rfl⟩
      rw [hunfold, hokT, hokR]
      simp only [Outcome.andThen, ParseUint_mod T 16 32 _ hokT, ParseUint_mod R 16 32 _ hokR]
    · intro hT
      obtain ⟨e, he⟩ := ParseUint_hex_error T 32 (by decide) hT
      exact ⟨e, by rw [hunfold, he]; rfl⟩
    · intro hT hR
      have hokT := (ParseUint_hex_iff T 32 (hexNumber T) (by decide)).mpr ⟨hT, rfl⟩
      obtain ⟨e, he⟩ := ParseUint_hex_error R 32 (by decide) hR
      exact ⟨e, by rw [hunfold, hokT, he]; rfl⟩

set_option maxRecDepth 100000 in
/-- C20: `parseUID` and `parseINode` succeed exactly on the non-empty strings of
decimal digits whose value is below 2^32, and return that value; every other
string gives an error, and a line whose index-7 or index-9 token is such a
string yields no record.  Strings with a sign, with a hex letter, or denoting
4294967296 are among the rejected ones. -/
theorem parseUID_parseINode_spec (s : GoString) :
    (∀ v, parseUID s = .ok v ↔ isDecUint 32 s ∧ v = decNumber s)
      ∧ (∀ v, parseINode s = .ok v ↔ isDecUint 32 s ∧ v = decNumber s)
      ∧ (¬ isDecUint 32 s → ∃ e, parseUID s = .error (.badUID e))
      ∧ (¬ isDecUint 32 s → ∃ e, parseINode s = .error (.badINode e))
      ∧ (¬ isDecUint 32 s → ∀ line p pv, (Fields line).get? indexUID = some s →
          ∀ c, toConn line p pv ≠ .ok c)
      ∧ (¬ isDecUint 32 s → ∀ line p pv, (Fields line).get? indexINode = some s →
          ∀ c, toConn line p pv ≠ .ok c)
      ∧ parseUID (str "BADUID") = .error (.badUID .errSyntax)
      ∧ parseINode (str "BADINODE") = .error (.badINode .errSyntax)
      ∧ parseUID (str "+1") = .error (.badUID .errSyntax)
      ∧ parseUID (str "-1") = .error (.badUID .errSyntax)
      ∧ parseUID (str "1A") = .error (.badUID .errSyntax)
      ∧ parseUID (str "") = .error (.badUID .errSyntax)
      ∧ parseUID (str "4294967296") = .error (.badUID .errRange)
      ∧ parseINode (str "4294967296") = .error (.badINode .errRange)
      ∧ parseUID (str "4294967295") = .ok 4294967295
      ∧ parseINode (str "1000") = .ok 1000 := by
  refine ⟨?_, ?_, parseUID_error s, parseINode_error s, ?_, ?_, by decide, by decide,
    by decide, by decide, by decide, by decide, by decide, by decide, by decide, by decide⟩
  · intro v
    rw [parseUID_eq_ok, ParseUint_dec_iff s 32 v (Nat.le_refl _)]
  · intro v
    rw [parseINode_eq_ok, ParseUint_dec_iff s 32 v (Nat.le_refl _)]
  · intro hs line p pv hf c hc
    obtain ⟨_, _, _, _, _, uidField, _, _, _, _, _, uid, _, _, _, _, _, _, _, _, _, _, h11,
      h12, _⟩ := toConn_ok_inv line p pv c hc
    rw [hf, Option.some.injEq] at h11
    subst h11
    exact hs ((ParseUint_dec_iff s 32 uid (Nat.le_refl _)).mp h12).1
  · intro hs line p pv hf c hc
    obtain ⟨_, _, _, _, iNodeField, _, _, _, _, _, iNode, _, _, _, _, _, _, _, _, _, h9,
      h10, _, _, _⟩ := toConn_ok_inv line p pv c hc
    rw [hf, Option.some.injEq] at h9
    subst h9
    exact hs ((ParseUint_dec_iff s 32 iNode (Nat.le_refl _)).mp h10).1

/-! ## Lemmas: the state of a record -/

theorem kernelCodes_states : ∀ c ∈ kernelCodes, (convertState c).1 ∈ symbolicStates := by
  decide

theorem convertState_ok_symbolic (s : GoString) (st : State)
    (h : convertState s = (st, none)) : st ∈ symbolicStates := by
  have := kernelCodes_states s (convertState_accepted s (by rw [h]))
  rwa [h] at this

theorem toConn_ok_state (line : GoString) (p : ipParser) (pv : ProtocolVersion)
    (c : Connection) (h : toConn line p pv = .ok c) : c.State ∈ symbolicStates := by
  obtain ⟨_, _, _, stateField, _, _, loc, rem, queues, state, iNode, uid, _, _, _, _, _, _,
    _, h8, _, _, _, _, hc⟩ := toConn_ok_inv line p pv c h
  by_cases hs : state = StateListen
  · rw [if_pos hs] at hc
    subst hc
    exact List.mem_cons_self _ _
  · rw [if_neg hs] at hc
    subst hc
    exact convertState_ok_symbolic stateField state h8

/-! ## The state of a record -/

/-- C23: `StateNone` is never the State of a record returned by a successful
`toConn` or `GetConnectionsFromReader` call: the State of every returned record
is one of the eleven symbolic states. -/
theorem returned_state_symbolic (line : GoString) (p : ipParser) (pv pv' : ProtocolVersion)
    (c : Connection) (reader : Reader) (conns : List Connection)
    (h1 : toConn line p pv = .ok c) (h2 : GetConnectionsFromReader reader pv' = .ok conns) :
    (c.State ∈ symbolicStates ∧ c.State ≠ StateNone)
      ∧ ∀ c' ∈ conns, c'.State ∈ symbolicStates ∧ c'.State ≠ StateNone := by
  have hnone : ∀ st : State, st ∈ symbolicStates → st ≠ StateNone := by decide
  refine ⟨⟨toConn_ok_state line p pv c h1, hnone _ (toConn_ok_state line p pv c h1)⟩, ?_⟩
  intro c' hc'
  obtain ⟨p', _, hmem⟩ := GetConnectionsFromReader_ok_mem reader pv' conns h2
  obtain ⟨l, _, hl⟩ := hmem c' hc'
  exact ⟨toConn_ok_state l p' pv' c' hl, hnone _ (toConn_ok_state l p' pv' c' hl)⟩

set_option maxRecDepth 100000 in
/-- An instance of C23: the established IPv4 test line and the IPv6 test table. -/
theorem returned_state_symbolic_witness :
    toConn establishedLineIPv4 .ipv4Parser ProtocolVersionIPv4
        = .ok (NewConnection StateEstablished ProtocolVersionIPv4 0 0 [192, 168, 1, 3] 54176
            [88, 221, 16, 125] 443 1000 380687)
      ∧ GetConnectionsFromReader (tableReader [headerLineIPv6, establishedLineIPv6])
          ProtocolVersionIPv6
        = .ok [NewConnection StateEstablished ProtocolVersionIPv6 0 0
            [0, 0, 0, 0, 0, 0, 0, 0, 0, 0, 0, 0, 0, 0, 0, 1] 6789
            [0, 0, 0, 0, 0, 0, 0, 0, 0, 0, 0, 0, 0, 0, 0, 1] 49018 1000 394269]
      ∧ ∀ c' ∈ [NewConnection StateEstablished ProtocolVersionIPv6 0 0
            [0, 0, 0, 0, 0, 0, 0, 0, 0, 0, 0, 0, 0, 0, 0, 1] 6789
            [0, 0, 0, 0, 0, 0, 0, 0, 0, 0, 0, 0, 0, 0, 0, 1] 49018 1000 394269],
          c'.State ∈ symbolicStates ∧ c'.State ≠ StateNone :=
  ⟨by decide, by decide,
    (returned_state_symbolic establishedLineIPv4 .ipv4Parser ProtocolVersionIPv4
      ProtocolVersionIPv6
      (NewConnection StateEstablished ProtocolVersionIPv4 0 0 [192, 168, 1, 3] 54176
        [88, 221, 16, 125] 443 1000 380687)
      (tableReader [headerLineIPv6, establishedLineIPv6])
      [NewConnection StateEstablished ProtocolVersionIPv6 0 0
        [0, 0, 0, 0, 0, 0, 0, 0, 0, 0, 0, 0, 0, 0, 0, 1] 6789
        [0, 0, 0, 0, 0, 0, 0, 0, 0, 0, 0, 0, 0, 0, 0, 1] 49018 1000 394269]
      (by decide) (by decide)).2⟩

/-! ## Lemmas: tokens that are not read -/

theorem Split_append (sep : UInt8) (b : GoString) : ∀ (a : GoString), sep ∉ a →
    Split (a ++ sep :: b) sep = a :: Split b sep := by
  intro a
  induction a with
  | nil => intro _; simp [Split]
  | cons c cs ih =>
    intro h
    have hc : c ≠ sep := fun e => h (e ▸ List.mem_cons_self _ _)
    have hcs : sep ∉ cs := fun e => h (List.mem_cons_of_mem _ e)
    have key : Split (c :: (cs ++ sep :: b)) sep
        = (match Split (cs ++ sep :: b) sep with
          | [] => [[c]]
          | h :: t => (c :: h) :: t) := by
      simp only [Split, hc, if_false]
    rw [List.cons_append, key, ih hcs]

theorem Split_no_sep (sep : UInt8) : ∀ (a : GoString), sep ∉ a → Split a sep = [a] := by
  intro a
  induction a with
  | nil => intro _; rfl
  | cons c cs ih =>
    intro h
    have hc : c ≠ sep := fun e => h (e ▸ List.mem_cons_self _ _)
    have hcs : sep ∉ cs := fun e => h (List.mem_cons_of_mem _ e)
    simp only [Split, hc, if_false, ih hcs]

theorem parseAddress_two_parts (t1 t2 a b : GoString) (r1 r2 : List GoString) (p : ipParser)
    (h1 : Split t1 0x3A = a :: b :: r1) (h2 : Split t2 0x3A = a :: b :: r2) :
    parseAddress t1 p = parseAddress t2 p := by
  have n1 : ¬ r1.length + 1 + 1 < 2 := by omega
  have n2 : ¬ r2.length + 1 + 1 < 2 := by omega
  simp [parseAddress, h1, h2, index, minNoOfAddressSubfields, subIndexIP, subIndexPort, n1, n2]

theorem parseQueues_two_parts (t1 t2 a b : GoString) (r1 r2 : List GoString)
    (h1 : Split t1 0x3A = a :: b :: r1) (h2 : Split t2 0x3A = a :: b :: r2) :
    parseQueues t1 = parseQueues t2 := by
  have n1 : ¬ r1.length + 1 + 1 < 2 := by omega
  have n2 : ¬ r2.length + 1 + 1 < 2 := by omega
  simp [parseQueues, h1, h2, index, minNoOfQueuesSubfields, subIndexTXQueue, subIndexRXQueue,
    n1, n2]

theorem toConn_six_tokens (l1 l2 : GoString) (p : ipParser) (pv : ProtocolVersion)
    (h1 : 10 ≤ (Fields l1).length) (h2 : 10 ≤ (Fields l2).length)
    (hidx : ∀ i ∈ [1, 2, 3, 4, 7, 9], (Fields l1).get? i = (Fields l2).get? i) :
    toConn l1 p pv = toConn l2 p pv := by
  have e1 := hidx 1 (by simp)
  have e2 := hidx 2 (by simp)
  have e3 := hidx 3 (by simp)
  have e4 := hidx 4 (by simp)
  have e7 := hidx 7 (by simp)
  have e9 := hidx 9 (by simp)
  unfold toConn
  simp only [minNoOfFields, Nat.not_lt.mpr h1, Nat.not_lt.mpr h2, if_false, index,
    indexLocalAddress, indexRemAddress, indexState, indexQueues, indexUID, indexINode,
    e1, e2, e3, e4, e7, e9]

theorem fieldsLoop_spaces : ∀ (xs : List (Nat × GoString)),
    (∀ x ∈ xs, IsSpace x.1 = true) → fieldsLoop xs none = [] := by
  intro xs
  induction xs with
  | nil => intro _; rfl
  | cons x rest ih =>
    intro h
    obtain ⟨r, bs⟩ := x
    have hr : IsSpace r = true := h (r, bs) (List.mem_cons_self _ _)
    simp only [fieldsLoop, hr, if_true]
    exact ih fun y hy => h y (List.mem_cons_of_mem _ hy)

theorem connsLoop_prefix (p : ipParser) (pv : ProtocolVersion) (e : Option Err)
    (rest : List GoString) : ∀ (pre : List GoString) (conns : List Connection),
    (∀ l ∈ pre, l ≠ [] → ∃ c, toConn l p pv = .ok c) →
    ∃ conns', connsLoop p pv (pre ++ rest) e false conns = connsLoop p pv rest e false conns' := by
  intro pre
  induction pre with
  | nil => intro conns _; exact ⟨conns, rfl⟩
  | cons l t ih =>
    intro conns h
    have ht : ∀ l' ∈ t, l' ≠ [] → ∃ c, toConn l' p pv = .ok c := fun l' hl' =>
      h l' (List.mem_cons_of_mem _ hl')
    by_cases hl : l.length = 0
    · simp only [List.cons_append, connsLoop, hl, if_true, Bool.false_eq_true, if_false]
      exact ih conns ht
    · obtain ⟨c, hc⟩ := h l (List.mem_cons_self _ _) (fun e => hl (by rw [e]; rfl))
      simp only [List.cons_append, connsLoop, hl, if_false, Bool.false_eq_true, hc,
        Outcome.andThen]
      exact ih _ ht

/-! ## Tokens that are not read -/

/-- C27: subfields beyond the second are ignored.  "A:P:x" decodes like "A:P" and
"T:R:x" like "T:R" for any extra text `x`; more generally two tokens with the
same first two ':'-separated parts give the same result of `parseAddress` and of
`parseQueues`; and two lines of at least ten tokens with the same tokens at
indices 1, 2, 3, 4, 7 and 9 give the same result of `toConn`. -/
theorem extra_subfields_ignored (A P T R x l1 l2 : GoString) (p : ipParser)
    (pv : ProtocolVersion) (hA : (0x3A : UInt8) ∉ A) (hP : (0x3A : UInt8) ∉ P)
    (hT : (0x3A : UInt8) ∉ T) (hR : (0x3A : UInt8) ∉ R)
    (h1 : 10 ≤ (Fields l1).length) (h2 : 10 ≤ (Fields l2).length)
    (hidx : ∀ i ∈ [1, 2, 3, 4, 7, 9], (Fields l1).get? i = (Fields l2).get? i) :
    parseAddress (A ++ 0x3A :: (P ++ 0x3A :: x)) p = parseAddress (A ++ 0x3A :: P) p
      ∧ parseQueues (T ++ 0x3A :: (R ++ 0x3A :: x)) = parseQueues (T ++ 0x3A :: R)
      ∧ (∀ t1 t2 a b r1 r2, Split t1 0x3A = a :: b :: r1 → Split t2 0x3A = a :: b :: r2 →
          parseAddress t1 p = parseAddress t2 p ∧ parseQueues t1 = parseQueues t2)
      ∧ toConn l1 p pv = toConn l2 p pv := by
  refine ⟨?_, ?_, ?_, toConn_six_tokens l1 l2 p pv h1 h2 hidx⟩
  · exact parseAddress_two_parts _ _ A P (Split x 0x3A) [] p
      (by rw [Split_append _ _ A hA, Split_append _ _ P hP])
      (by rw [Split_append _ _ A hA, Split_no_sep _ P hP])
  · exact parseQueues_two_parts _ _ T R (Split x 0x3A) []
      (by rw [Split_append _ _ T hT, Split_append _ _ R hR])
      (by rw [Split_append _ _ T hT, Split_no_sep _ R hR])
  · intro t1 t2 a b r1 r2 e1 e2
    exact ⟨parseAddress_two_parts t1 t2 a b r1 r2 p e1 e2,
      parseQueues_two_parts t1 t2 a b r1 r2 e1 e2⟩

set_option maxRecDepth 100000 in
set_option maxHeartbeats 4000000 in
/-- An instance of C27: the tokens "0100007F:1A85:junk:more" and
"00000000:00000032:junk:more", and the listening test line against a line with
the same six tokens and every other token changed, three of them added. -/
theorem extra_subfields_ignored_witness :
    parseAddress (str "0100007F:1A85:junk:more") .ipv4Parser = .ok ([127, 0, 0, 1], 6789)
      ∧ parseAddress (str "0100007F" ++ 0x3A :: (str "1A85" ++ 0x3A :: str "junk:more"))
          .ipv4Parser
        = parseAddress (str "0100007F" ++ 0x3A :: str "1A85") .ipv4Parser
      ∧ parseQueues (str "00000000:00000032:junk:more") = .ok (0, 50)
      ∧ toConn listeningLineIPv4 .ipv4Parser ProtocolVersionIPv4
        = toConn listeningLineOtherTokens .ipv4Parser ProtocolVersionIPv4 :=
  have h := extra_subfields_ignored (str "0100007F") (str "1A85") (str "00000000")
    (str "00000032") (str "junk:more") listeningLineIPv4 listeningLineOtherTokens .ipv4Parser
    ProtocolVersionIPv4 (by decide) (by decide) (by decide) (by decide) (by decide)
    (by decide) (by decide)
  ⟨by decide, h.1, by decide, h.2.2.2⟩

/-! ## Lemmas: panics and errors of the line decoder -/

theorem reverseLoop_even_ne_panic : ∀ (n : Nat) (src : List Nat), src.length = 2 * n →
    ∀ (pre post : List UInt8), pre.length = n →
    reverseLoop src ((n : Int) - 1) (pre ++ post) ≠ .panic := by
  intro n
  induction n with
  | zero =>
    intro src hs pre post _
    have hs' : src = [] := List.length_eq_zero.mp (by omega)
    subst hs'
    simp [reverseLoop]
  | succ n ih =>
    intro src hs pre post hpre
    match src, hs with
    | [], hs => simp at hs
    | [_], hs => simp at hs; omega
    | r0 :: r1 :: rest, hs =>
      have hlen : rest.length = 2 * n := by simp at hs; omega
      rcases List.eq_nil_or_concat pre with hp | ⟨pre', x, hp⟩
      · subst hp; simp at hpre
      · subst hp
        have hpre' : pre'.length = n := by simpa using hpre
        have hj : ((n + 1 : Nat) : Int) - 1 = (n : Int) := by omega
        have hin : (0 : Int) ≤ (n : Int) ∧ (n : Int) < ((pre'.concat x ++ post).length : Int) := by
          simp [hpre']
        simp only [reverseLoop, hj]
        cases hp : ParseUint (runesToString [r0, r1]) 16 8 with
        | panic => exact absurd hp (ParseUint_ne_panic _ _ _)
        | error e => simp
        | ok v =>
          have hset : (pre'.concat x ++ post).set n (UInt8.ofNat v)
              = pre' ++ (UInt8.ofNat v :: post) := by
            simp [List.concat_eq_append, List.append_assoc, ← hpre']
          simp only [hin, and_self, if_true, Int.toNat_ofNat, hset]
          exact ih rest hlen pre' _ hpre'

theorem reverseBytesInHexWord_even_runes (s : GoString)
    (hr : (toRunes s).length % 2 = 0) : reverseBytesInHexWord s ≠ .panic := by
  unfold reverseBytesInHexWord
  split_ifs
  · simp
  · have hlen : (toRunes s).length = 2 * ((toRunes s).length / 2) := by omega
    have key := reverseLoop_even_ne_panic ((toRunes s).length / 2) (toRunes s) hlen
      (List.replicate ((toRunes s).length / 2) (0 : UInt8)) [] (by simp)
    simp only [List.append_nil] at key
    simp only [List.length_replicate]
    exact key

theorem toConn_remote_error (line : GoString) (p : ipParser) (pv : ProtocolVersion)
    (localField remField : GoString) (loc : List UInt8 × Nat) (e : Err)
    (hlen : 10 ≤ (Fields line).length)
    (h1 : (Fields line).get? indexLocalAddress = some localField)
    (h2 : parseAddress localField p = .ok loc)
    (h3 : (Fields line).get? indexRemAddress = some remField)
    (h4 : parseAddress remField p = .error e) :
    toConn line p pv = .error (.parsingRemoteAddress e) := by
  unfold toConn
  simp only [minNoOfFields, Nat.not_lt.mpr hlen, if_false, index, h1, h2, h3, h4,
    Outcome.andThen]

/-! ## Panics and errors of the line decoder -/

set_option maxRecDepth 100000 in
/-- C25, the failing inputs: "é" passes the even-length check (two bytes, one
rune) and the loop's first read of `src[i+1]` is out of range; "0A0B0Cé" is
eight bytes long and makes `ipv4Parser.parseAddress` panic, and a 32-byte string
ending in it makes `ipv6Parser.parseAddress` panic.  The fault is the read of
`src[i+1]`: a word with an even number of runes never panics. -/
theorem reverseBytesInHexWord_index_out_of_range :
    (str "é").length % 2 = 0 ∧ toRunes (str "é") = [0xE9]
      ∧ reverseBytesInHexWord (str "é") = .panic
      ∧ (str "0A0B0Cé").length = 8
      ∧ ipv4Parser.parseAddress (str "0A0B0Cé") = .panic
      ∧ (str "0000000000000000000000000A0B0Cé").length = 32
      ∧ ipv6Parser.parseAddress (str "0000000000000000000000000A0B0Cé") = .panic
      ∧ (∀ s : GoString, (toRunes s).length % 2 = 0 → reverseBytesInHexWord s ≠ .panic) :=
  ⟨by decide, by decide, by decide, by decide, by decide, by decide, by decide,
    reverseBytesInHexWord_even_runes⟩

set_option maxRecDepth 100000 in
/-- C21, the failing input: the listening test line with the remote token
"000000é:0000", an address of eight bytes holding a character that is not a hex
digit.  `toConn` panics instead of returning an error.  With a remote token that
has no colon, a wrong length, a non-hex ASCII letter or a bad port, the same
line does return an error. -/
theorem toConn_listening_bad_remote_panics :
    (Fields (listeningLineWithRemote (str "000000é:0000"))).get? indexState
        = some kernelTCPListen
      ∧ (Fields (listeningLineWithRemote (str "000000é:0000"))).get? indexRemAddress
        = some (str "000000é:0000")
      ∧ toConn (listeningLineWithRemote (str "000000é:0000")) .ipv4Parser ProtocolVersionIPv4
        = .panic
      ∧ toConn (listeningLineWithRemote (str "00000000")) .ipv4Parser ProtocolVersionIPv4
        = .error (.parsingRemoteAddress .tooFewAddressSubfields)
      ∧ toConn (listeningLineWithRemote (str "BADADDRESS:0000")) .ipv4Parser
          ProtocolVersionIPv4
        = .error (.parsingRemoteAddress (.badIP .ipv4Length))
      ∧ toConn (listeningLineWithRemote (str "0000000G:0000")) .ipv4Parser
          ProtocolVersionIPv4
        = .error (.parsingRemoteAddress (.badIP (.reversingAddress (.parseOctet .errSyntax))))
      ∧ toConn (listeningLineWithRemote (str "00000000:BADPORT")) .ipv4Parser
          ProtocolVersionIPv4
        = .error (.parsingRemoteAddress (.badPort .errSyntax))
      ∧ toConn (listeningLineWithRemote (str "00000000:0000")) .ipv4Parser
          ProtocolVersionIPv4
        = .ok (NewListeningConnection ProtocolVersionIPv4 50 [127, 0, 0, 1] 6789 1000 789829) := by
  decide

/-- C26: a non-empty line made only of white space yields zero tokens and makes
`toConn` return the too-few-fields error.  A table that holds such a line after
its first line never decodes to records, and when the non-empty lines before it
all decode, the decode returns that error. -/
theorem whitespace_line_fails (line : GoString) (p : ipParser) (pv : ProtocolVersion)
    (hne : line ≠ []) (hws : ∀ x ∈ rangeString line, IsSpace x.1 = true) :
    Fields line = [] ∧ toConn line p pv = .error .tooFewFields
      ∧ (∀ (reader : Reader) (pv' : ProtocolVersion) (l0 : GoString) (rest : List GoString)
          (e : Option Err), scanLines reader = (l0 :: rest, e) → line ∈ rest →
          ∀ conns, GetConnectionsFromReader reader pv' ≠ .ok conns)
      ∧ (∀ (reader : Reader) (pv' : ProtocolVersion) (p' : ipParser) (l0 : GoString)
          (pre post : List GoString) (e : Option Err),
          ProtocolVersion.parser pv' = .ok p' →
          scanLines reader = (l0 :: (pre ++ line :: post), e) →
          (∀ l ∈ pre, l ≠ [] → ∃ c, toConn l p' pv' = .ok c) →
          GetConnectionsFromReader reader pv' = .error (.parsingEvent .tooFewFields)) := by
  have hfields : Fields line = [] := fieldsLoop_spaces _ hws
  have hshort : (Fields line).length < 10 := by rw [hfields]; decide
  refine ⟨hfields, toConn_too_few_fields line p pv hshort, ?_, ?_⟩
  · intro reader pv' l0 rest e hscan hmem conns
    refine GetConnectionsFromReader_not_ok reader pv' l0 line rest e hscan hmem hne ?_ conns
    intro p' c
    rw [toConn_too_few_fields line p' pv' hshort]
    simp
  · intro reader pv' p' l0 pre post e hp hscan hpre
    have hl : line.length ≠ 0 := fun h => hne (List.length_eq_zero.mp h)
    obtain ⟨conns', hc⟩ := connsLoop_prefix p' pv' e (line :: post) pre [] hpre
    unfold GetConnectionsFromReader
    rw [hp, hscan]
    simp only [Outcome.andThen, connsLoop, if_true]
    rw [hc]
    simp only [connsLoop, hl, if_false, Bool.false_eq_true,
      toConn_too_few_fields line p' pv' hshort, Outcome.andThen]

set_option maxRecDepth 100000 in
/-- An instance of C26: a line that is one space, after the header and the
listening test line, and a line that is one tab. -/
theorem whitespace_line_fails_witness :
    (Fields (str " ") = [] ∧ toConn (str " ") .ipv4Parser ProtocolVersionIPv4
        = .error .tooFewFields)
      ∧ GetConnectionsFromReader (tableReader [headerLineIPv4, listeningLineIPv4, str " "])
          ProtocolVersionIPv4 = .error (.parsingEvent .tooFewFields)
      ∧ GetConnectionsFromReader (tableReader [headerLineIPv4, str "\t"])
          ProtocolVersionIPv4 = .error (.parsingEvent .tooFewFields) :=
  have h := whitespace_line_fails (str " ") .ipv4Parser ProtocolVersionIPv4 (by decide)
    (by decide)
  have ht := whitespace_line_fails (str "\t") .ipv4Parser ProtocolVersionIPv4 (by decide)
    (by decide)
  ⟨⟨h.1, h.2.1⟩,
    h.2.2.2 (tableReader [headerLineIPv4, listeningLineIPv4, str " "]) ProtocolVersionIPv4
      .ipv4Parser headerLineIPv4 [listeningLineIPv4] [] none (by decide) (by decide)
      (fun l hl _ =>
        ⟨NewListeningConnection ProtocolVersionIPv4 50 [127, 0, 0, 1] 6789 1000 789829, by
          rw [List.mem_singleton.mp hl]; decide⟩),
    ht.2.2.2 (tableReader [headerLineIPv4, str "\t"]) ProtocolVersionIPv4
      .ipv4Parser headerLineIPv4 [] [] none (by decide) (by decide)
      (fun _ hl _ => absurd hl (List.not_mem_nil _))⟩

/-! ## Lemmas: the scanner on one line -/

theorem MaxScanTokenSize_eq : MaxScanTokenSize = 65536 := by decide

theorem scanLoop_no_newline (e : Option Err) : ∀ (data line : GoString),
    (0x0A : UInt8) ∉ data →
    scanLoop data line e
      = if line ++ data = [] then ([], e)
        else if (line ++ data).length ≥ MaxScanTokenSize then ([], some .tooLong)
        else ([dropCR (line ++ data)], e) := by
  intro data
  induction data with
  | nil => intro line _; simp only [scanLoop, List.append_nil]
  | cons c rest ih =>
    intro line h
    have hc : c ≠ 0x0A := fun e => h (e ▸ List.mem_cons_self _ _)
    have hrest : (0x0A : UInt8) ∉ rest := fun e => h (List.mem_cons_of_mem _ e)
    simp only [scanLoop, hc, if_false]
    rw [ih (line ++ [c]) hrest, List.append_assoc, List.singleton_append]

theorem scanLoop_newline (e : Option Err) (rest : GoString) : ∀ (h line : GoString),
    (0x0A : UInt8) ∉ h →
    scanLoop (h ++ 0x0A :: rest) line e
      = if (line ++ h).length ≥ MaxScanTokenSize then ([], some .tooLong)
        else (dropCR (line ++ h) :: (scanLoop rest [] e).1, (scanLoop rest [] e).2) := by
  intro h
  induction h with
  | nil => intro line _; simp only [List.nil_append, scanLoop, if_true, List.append_nil]
  | cons c t ih =>
    intro line hnl
    have hc : c ≠ 0x0A := fun e => hnl (e ▸ List.mem_cons_self _ _)
    have ht : (0x0A : UInt8) ∉ t := fun e => hnl (List.mem_cons_of_mem _ e)
    have key : scanLoop (c :: (t ++ 0x0A :: rest)) line e
        = scanLoop (t ++ 0x0A :: rest) (line ++ [c]) e := by
      simp only [scanLoop, hc, if_false]
    rw [List.cons_append, key, ih (line ++ [c]) ht, List.append_assoc, List.singleton_append]

theorem GetConnectionsFromReader_one_line (h : GoString) (pv : ProtocolVersion)
    (p : ipParser) (hp : ProtocolVersion.parser pv = .ok p) (hnl : (0x0A : UInt8) ∉ h)
    (hlen : h.length < 65536) :
    GetConnectionsFromReader { data := h, err := none } pv = .ok []
      ∧ GetConnectionsFromReader { data := h ++ [0x0A], err := none } pv = .ok [] := by
  have hmax : ¬ h.length ≥ MaxScanTokenSize := by rw [MaxScanTokenSize_eq]; omega
  constructor
  · unfold GetConnectionsFromReader scanLines
    rw [hp, scanLoop_no_newline none h [] hnl, List.nil_append]
    by_cases hh : h = []
    · simp [hh, Outcome.andThen, connsLoop]
    · simp [hh, hmax, Outcome.andThen, connsLoop]
  · unfold GetConnectionsFromReader scanLines
    rw [hp, scanLoop_newline none [] h [] hnl, List.nil_append]
    simp [hmax, Outcome.andThen, connsLoop, scanLoop]

theorem GetConnectionsFromReader_long_line (g : GoString) (pv : ProtocolVersion)
    (p : ipParser) (hp : ProtocolVersion.parser pv = .ok p) (hnl : (0x0A : UInt8) ∉ g)
    (hlen : 65536 ≤ g.length) :
    GetConnectionsFromReader { data := g, err := none } pv = .error (.scanning .tooLong)
      ∧ GetConnectionsFromReader { data := g ++ [0x0A], err := none } pv
        = .error (.scanning .tooLong) := by
  have hmax : g.length ≥ MaxScanTokenSize := by rw [MaxScanTokenSize_eq]; omega
  have hne : g ≠ [] := by
    intro hg
    rw [hg] at hlen
    simp at hlen
  constructor
  · unfold GetConnectionsFromReader scanLines
    rw [hp, scanLoop_no_newline none g [] hnl, List.nil_append]
    simp [hne, hmax, Outcome.andThen, connsLoop]
  · unfold GetConnectionsFromReader scanLines
    rw [hp, scanLoop_newline none [] g [] hnl, List.nil_append]
    simp [hmax, Outcome.andThen, connsLoop]

theorem longHeaderLine_facts :
    (0x0A : UInt8) ∉ longHeaderLine ∧ longHeaderLine.length = 65536 := by
  constructor
  · intro h
    exact absurd (List.eq_of_mem_replicate h) (by decide)
  · exact List.length_replicate _ _

/-! ## Tables without data lines -/

/-- C22 as stated fails: a table that is one header line of 65536 letters, with or
without a trailing newline, does not decode to an empty record sequence; the
scanner stops with `bufio.ErrTooLong` and the decode returns an error. -/
theorem header_only_table_too_long :
    (0x0A : UInt8) ∉ longHeaderLine
      ∧ GetConnectionsFromReader { data := longHeaderLine, err := none } ProtocolVersionIPv4
        = .error (.scanning .tooLong)
      ∧ GetConnectionsFromReader { data := longHeaderLine ++ [0x0A], err := none }
          ProtocolVersionIPv4
        = .error (.scanning .tooLong) :=
  ⟨longHeaderLine_facts.1,
    (GetConnectionsFromReader_long_line longHeaderLine ProtocolVersionIPv4 .ipv4Parser
      (by decide) longHeaderLine_facts.1 (Nat.le_of_eq longHeaderLine_facts.2.symm)).1,
    (GetConnectionsFromReader_long_line longHeaderLine ProtocolVersionIPv4 .ipv4Parser
      (by decide) longHeaderLine_facts.1 (Nat.le_of_eq longHeaderLine_facts.2.symm)).2⟩

/-- C22 amended: for both supported families, a table that consists only of a
header line of fewer than 65536 bytes, of any content, with or without a
trailing newline, decodes to an empty record sequence, and so does an input
with no lines at all. -/
theorem header_only_table (h : GoString) (pv : ProtocolVersion)
    (hpv : pv = ProtocolVersionIPv4 ∨ pv = ProtocolVersionIPv6)
    (hnl : (0x0A : UInt8) ∉ h) (hlen : h.length < 65536) :
    GetConnectionsFromReader { data := h, err := none } pv = .ok []
      ∧ GetConnectionsFromReader { data := h ++ [0x0A], err := none } pv = .ok []
      ∧ GetConnectionsFromReader { data := [], err := none } pv = .ok [] := by
  have hp : ∃ p, ProtocolVersion.parser pv = .ok p := by
    rcases hpv with rfl | rfl
    · exact ⟨.ipv4Parser, by decide⟩
    · exact ⟨.ipv6Parser, by decide⟩
  obtain ⟨p, hp⟩ := hp
  obtain ⟨h1, h2⟩ := GetConnectionsFromReader_one_line h pv p hp hnl hlen
  exact ⟨h1, h2, (GetConnectionsFromReader_one_line [] pv p hp (List.not_mem_nil _)
    (by decide)).1⟩

set_option maxRecDepth 100000 in
/-- An instance of C22 amended: the IPv4 test header alone. -/
theorem header_only_table_witness :
    GetConnectionsFromReader { data := headerLineIPv4, err := none } ProtocolVersionIPv4
        = .ok []
      ∧ GetConnectionsFromReader { data := headerLineIPv4 ++ [0x0A], err := none }
          ProtocolVersionIPv4 = .ok []
      ∧ GetConnectionsFromReader { data := [], err := none } ProtocolVersionIPv4 = .ok [] :=
  header_only_table headerLineIPv4 ProtocolVersionIPv4 (Or.inl rfl) (by decide) (by decide)

/-! ## Lemmas: the records of a table -/

theorem connsLoop_ok_iff (p : ipParser) (pv : ProtocolVersion) :
    ∀ (lines : List GoString) (conns0 out : List Connection),
      connsLoop p pv lines none false conns0 = .ok out ↔
        ∃ recs, (lines.filter fun l => decide (l ≠ [])).map (fun l => toConn l p pv)
            = recs.map Outcome.ok ∧ out = conns0 ++ recs := by
  intro lines
  induction lines with
  | nil =>
    intro conns0 out
    simp only [connsLoop, Outcome.ok.injEq, List.filter_nil, List.map_nil]
    constructor
    · intro h; exact ⟨[], rfl, by simp [h]⟩
    · rintro ⟨recs, hr, ho⟩
      have : recs = [] := List.map_eq_nil_iff.mp hr.symm
      subst this
      simp [ho]
  | cons l rest ih =>
    intro conns0 out
    by_cases hl : l = []
    · subst hl
      simp only [connsLoop, List.length_nil, if_true, Bool.false_eq_true, if_false, ne_eq,
        not_true_eq_false, decide_False, List.filter_cons_of_neg, not_false_eq_true]
      exact ih conns0 out
    · have hlen : l.length ≠ 0 := fun h => hl (List.length_eq_zero.mp h)
      simp only [connsLoop, hlen, if_false, Bool.false_eq_true, ne_eq, hl, not_false_eq_true,
        decide_True, List.filter_cons_of_pos, List.map_cons]
      cases hc : toConn l p pv with
      | ok c =>
        simp only [Outcome.andThen]
        rw [ih (conns0 ++ [c]) out]
        constructor
        · rintro ⟨recs, hr, ho⟩
          refine ⟨c :: recs, ?_, by simp [ho]⟩
          rw [List.map_cons, hr]
        · rintro ⟨recs, hr, ho⟩
          cases recs with
          | nil => simp at hr
          | cons c' recs' =>
            simp only [List.map_cons, List.cons.injEq, Outcome.ok.injEq] at hr
            refine ⟨recs', hr.2, ?_⟩
            rw [ho, hr.1]; simp
      | error e =>
        simp only [Outcome.andThen, reduceCtorEq, false_iff, not_exists, not_and]
        intro recs hr
        cases recs with
        | nil => simp at hr
        | cons c' recs' => simp at hr
      | panic =>
        simp only [Outcome.andThen, reduceCtorEq, false_iff, not_exists, not_and]
        intro recs hr
        cases recs with
        | nil => simp at hr
        | cons c' recs' => simp at hr

theorem exists_records {α β : Type} (f : α → Outcome β) : ∀ (L : List α),
    (∀ l ∈ L, ∃ c, f l = .ok c) → ∃ recs : List β, L.map f = recs.map Outcome.ok := by
  intro L
  induction L with
  | nil => intro _; exact ⟨[], rfl⟩
  | cons a t ih =>
    intro h
    obtain ⟨c, hc⟩ := h a (List.mem_cons_self _ _)
    obtain ⟨recs, hr⟩ := ih fun l hl => h l (List.mem_cons_of_mem _ hl)
    exact ⟨c :: recs, by simp [hc, hr]⟩

theorem GetConnectionsFromReader_ok_iff (reader : Reader) (pv : ProtocolVersion)
    (p : ipParser) (l0 : GoString) (rest : List GoString) (conns : List Connection)
    (hp : ProtocolVersion.parser pv = .ok p) (hscan : scanLines reader = (l0 :: rest, none)) :
    GetConnectionsFromReader reader pv = .ok conns ↔
      (rest.filter fun l => decide (l ≠ [])).map (fun l => toConn l p pv)
        = conns.map Outcome.ok := by
  unfold GetConnectionsFromReader
  rw [hp, hscan]
  simp only [Outcome.andThen, connsLoop, if_true]
  rw [connsLoop_ok_iff p pv rest [] conns]
  constructor
  · rintro ⟨recs, hr, ho⟩
    rw [ho, List.nil_append]; exact hr
  · intro h
    exact ⟨conns, h, by simp⟩

theorem textOf_cons (l : GoString) (ls : List GoString) :
    textOf (l :: ls) = l ++ 0x0A :: textOf ls := by
  simp only [textOf, List.flatMap_cons, List.append_assoc, List.singleton_append]

theorem dropCR_of_isScanLine (l : GoString) (h : isScanLine l) : dropCR l = l := by
  unfold dropCR
  rw [if_neg h.2.1]

theorem scanLoop_textOf (e : Option Err) : ∀ (lines : List GoString),
    (∀ l ∈ lines, isScanLine l) → scanLoop (textOf lines) [] e = (lines, e) := by
  intro lines
  induction lines with
  | nil => intro _; rfl
  | cons l ls ih =>
    intro h
    have hl := h l (List.mem_cons_self _ _)
    have hmax : ¬ l.length ≥ MaxScanTokenSize := by
      rw [MaxScanTokenSize_eq]
      exact Nat.not_le.mpr hl.2.2
    rw [textOf_cons, scanLoop_newline e (textOf ls) l [] hl.1, List.nil_append, if_neg hmax,
      ih (fun l' hl' => h l' (List.mem_cons_of_mem _ hl')), dropCR_of_isScanLine l hl]

theorem scanLines_textOf (lines : List GoString) (h : ∀ l ∈ lines, isScanLine l) :
    scanLines { data := textOf lines, err := none } = (lines, none) :=
  scanLoop_textOf none lines h

theorem GetConnectionsFromReader_long_first_line (g rest : GoString) (pv : ProtocolVersion)
    (p : ipParser) (hp : ProtocolVersion.parser pv = .ok p) (hnl : (0x0A : UInt8) ∉ g)
    (hlen : 65536 ≤ g.length) :
    GetConnectionsFromReader { data := g ++ 0x0A :: rest, err := none } pv
      = .error (.scanning .tooLong) := by
  have hmax : g.length ≥ MaxScanTokenSize := by rw [MaxScanTokenSize_eq]; omega
  unfold GetConnectionsFromReader scanLines
  rw [hp, scanLoop_newline none rest g [] hnl, List.nil_append]
  simp [hmax, Outcome.andThen, connsLoop]

/-! ## The records of a table -/

set_option maxRecDepth 100000 in
/-- C24 as stated fails: in the line sequence made of a first line of 65536
letters and the listening test line, `toConn` succeeds on every non-empty line
after the first, yet `GetConnectionsFromReader` does not succeed: the scanner
stops with `bufio.ErrTooLong`.  With the test header as first line the same
table decodes to one record, so the result depends on the first line. -/
theorem GetConnectionsFromReader_first_line_too_long :
    (0x0A : UInt8) ∉ longHeaderLine ∧ (0x0A : UInt8) ∉ listeningLineIPv4
      ∧ toConn listeningLineIPv4 .ipv4Parser ProtocolVersionIPv4
        = .ok (NewListeningConnection ProtocolVersionIPv4 50 [127, 0, 0, 1] 6789 1000 789829)
      ∧ GetConnectionsFromReader
          { data := textOf [longHeaderLine, listeningLineIPv4], err := none }
          ProtocolVersionIPv4
        = .error (.scanning .tooLong)
      ∧ GetConnectionsFromReader
          { data := textOf [headerLineIPv4, listeningLineIPv4], err := none }
          ProtocolVersionIPv4
        = .ok [NewListeningConnection ProtocolVersionIPv4 50 [127, 0, 0, 1] 6789 1000 789829] := by
  refine ⟨longHeaderLine_facts.1, by decide, by decide, ?_, by decide⟩
  rw [textOf_cons]
  exact GetConnectionsFromReader_long_first_line longHeaderLine _ ProtocolVersionIPv4
    .ipv4Parser (by decide) longHeaderLine_facts.1 (Nat.le_of_eq longHeaderLine_facts.2.symm)

/-- C24 amended: for every line sequence `l0, l1, ..., ln` whose lines are each
shorter than 65536 bytes (and hold no newline and no final carriage return),
read from a reader that ends without error, and for every supported family:
the scanner delivers exactly these lines; `GetConnectionsFromReader` returns
`conns` exactly when `toConn` on the non-empty lines after `l0`, in input order,
gives exactly the successes `conns`; it succeeds if and only if `toConn`
succeeds on each of those lines; and the result is the same for every first
line shorter than 65536 bytes.  The same characterisation holds for any reader
whose scanner delivers `t0, ..., tn` and ends without error. -/
theorem GetConnectionsFromReader_records (pv : ProtocolVersion) (p : ipParser)
    (l0 : GoString) (rest : List GoString) (hp : ProtocolVersion.parser pv = .ok p)
    (hlines : ∀ l ∈ l0 :: rest, isScanLine l) :
    scanLines { data := textOf (l0 :: rest), err := none } = (l0 :: rest, none)
      ∧ (∀ conns,
          GetConnectionsFromReader { data := textOf (l0 :: rest), err := none } pv = .ok conns ↔
            (rest.filter fun l => decide (l ≠ [])).map (fun l => toConn l p pv)
              = conns.map Outcome.ok)
      ∧ ((∃ conns,
            GetConnectionsFromReader { data := textOf (l0 :: rest), err := none } pv
              = .ok conns) ↔
          ∀ l ∈ rest, l ≠ [] → ∃ c, toConn l p pv = .ok c)
      ∧ (∀ l0' : GoString, isScanLine l0' →
          GetConnectionsFromReader { data := textOf (l0' :: rest), err := none } pv
            = GetConnectionsFromReader { data := textOf (l0 :: rest), err := none } pv)
      ∧ (∀ (reader : Reader) (t0 : GoString) (ts : List GoString) (conns : List Connection),
          scanLines reader = (t0 :: ts, none) →
          (GetConnectionsFromReader reader pv = .ok conns ↔
            (ts.filter fun l => decide (l ≠ [])).map (fun l => toConn l p pv)
              = conns.map Outcome.ok)) := by
  have hscan := scanLines_textOf (l0 :: rest) hlines
  refine ⟨hscan, fun conns => GetConnectionsFromReader_ok_iff _ pv p l0 rest conns hp hscan,
    ?_, ?_, ?_⟩
  · constructor
    · rintro ⟨conns, hc⟩ l hl hne
      have hmap := (GetConnectionsFromReader_ok_iff _ pv p l0 rest conns hp hscan).mp hc
      have hmem : toConn l p pv
          ∈ (rest.filter fun l => decide (l ≠ [])).map (fun l => toConn l p pv) :=
        List.mem_map_of_mem _ (List.mem_filter.mpr ⟨hl, by simpa using hne⟩)
      rw [hmap, List.mem_map] at hmem
      obtain ⟨c, _, hc'⟩ := hmem
      exact ⟨c, hc'.symm⟩
    · intro h
      obtain ⟨recs, hr⟩ := exists_records (fun l => toConn l p pv)
        (rest.filter fun l => decide (l ≠ [])) (fun l hl => by
          obtain ⟨h1, h2⟩ := List.mem_filter.mp hl
          exact h l h1 (by simpa using h2))
      exact ⟨recs, (GetConnectionsFromReader_ok_iff _ pv p l0 rest recs hp hscan).mpr hr⟩
  · intro l0' hl0'
    have hscan' := scanLines_textOf (l0' :: rest) (fun l hl => by
      rcases List.mem_cons.mp hl with rfl | hm
      · exact hl0'
      · exact hlines l (List.mem_cons_of_mem _ hm))
    rw [GetConnectionsFromReader_lines _ pv l0' rest none hscan',
      GetConnectionsFromReader_lines _ pv l0 rest none hscan]
  · intro reader t0 ts conns hs
    exact GetConnectionsFromReader_ok_iff reader pv p t0 ts conns hp hs

set_option maxRecDepth 100000 in
set_option maxHeartbeats 4000000 in
/-- The test of C24: the IPv6 table of the non-listening test, with the IPv6
listening line and an empty line added, decodes to the two records in input
order, whatever the first line is. -/
theorem GetConnectionsFromReader_records_witness :
    GetConnectionsFromReader
        { data := textOf [headerLineIPv6, establishedLineIPv6, [], listeningLineIPv6],
          err := none }
        ProtocolVersionIPv6
      = .ok [NewConnection StateEstablished ProtocolVersionIPv6 0 0
              [0, 0, 0, 0, 0, 0, 0, 0, 0, 0, 0, 0, 0, 0, 0, 1] 6789
              [0, 0, 0, 0, 0, 0, 0, 0, 0, 0, 0, 0, 0, 0, 0, 1] 49018 1000 394269,
            NewListeningConnection ProtocolVersionIPv6 0
              [0, 0, 0, 0, 0, 0, 0, 0, 0, 0, 0, 0, 0, 0, 0, 1] 631 0 31267]
    ∧ GetConnectionsFromReader
        { data := textOf [str "any first line", establishedLineIPv6, [], listeningLineIPv6],
          err := none }
        ProtocolVersionIPv6
      = GetConnectionsFromReader
          { data := textOf [headerLineIPv6, establishedLineIPv6, [], listeningLineIPv6],
            err := none }
          ProtocolVersionIPv6 :=
  have h := GetConnectionsFromReader_records ProtocolVersionIPv6 .ipv6Parser headerLineIPv6
    [establishedLineIPv6, [], listeningLineIPv6] (by decide) (by decide)
  ⟨(h.2.1 _).mpr (by decide), h.2.2.2.1 (str "any first line") (by decide)⟩

end Tcpconnparser
